import Mathlib

/-!
Verification development for the static code-structure analyzer in
`Code-view.py` (AST extraction, text rendering, graph-model building).
The Python source is shallowly embedded: the fragment of the Python AST
that the analyzer's `ast.NodeVisitor` distinguishes becomes an inductive
type, the stateful visitor becomes a state-passing traversal, and the
graphviz `Digraph` becomes an explicit record of node and edge lists.
Python sets are modelled by lists read only through membership, and
Python dicts by association lists in insertion order.
-/

namespace CodeView

/-! ## String helpers

The source uses `os.path.basename`, `str.replace` and `str.split('.')`.
These are re-implemented over `List Char` with Python semantics
(`split` on a separator never returns an empty list; `replace` replaces
every non-overlapping occurrence left to right), so that everything
reduces in the kernel. -/

/-- Python `s.split(sep)` on character lists: always at least one piece. -/
def pySplit (sep : Char) : List Char → List (List Char)
  | [] => [[]]
  | c :: cs =>
    let rest := pySplit sep cs
    if c = sep then [] :: rest
    else match rest with
      | [] => [[c]]
      | p :: ps => (c :: p) :: ps

/-- Whether `pat` is a prefix of `l` (helper for `pyReplace`). -/
def isPrefixB : List Char → List Char → Bool
  | [], _ => true
  | _ :: _, [] => false
  | p :: ps, c :: cs => p = c && isPrefixB ps cs

/-- Python `s.replace(pat, rep)`: replace non-overlapping occurrences of a
nonempty `pat` left to right. -/
def pyReplace (pat rep : List Char) : List Char → List Char
  | [] => []
  | c :: cs =>
    if isPrefixB pat (c :: cs) ∧ pat ≠ [] then
      rep ++ pyReplace pat rep (List.drop (pat.length - 1) cs)
    else
      c :: pyReplace pat rep cs
termination_by l => l.length
decreasing_by
  all_goals simp_wf
  all_goals omega

/-- Python `os.path.basename` on a POSIX path: the part after the last `/`. -/
def pyBasename (s : String) : String :=
  ⟨(pySplit '/' s.data).getLastD []⟩

/-- `os.path.basename(filepath).replace(".py", "")` from line 197 of the source. -/
def moduleNameOfPath (fp : String) : String :=
  ⟨pyReplace ".py".data "".data (pyBasename fp).data⟩

/-- Python `".".join(l)`. -/
def joinDots : List String → String
  | [] => ""
  | [x] => x
  | x :: xs => x ++ "." ++ joinDots xs

/-- Python `s.split('.')` returning strings. -/
def splitDots (s : String) : List String :=
  (pySplit '.' s.data).map (fun l => ⟨l⟩)

/-! ## The embedded Python AST fragment

`CodeStructureExtractor` distinguishes `Name`, `Attribute`, `Call` and
"everything else" among expressions (`_get_full_name`), plus string
constants (only observable through `ast.get_docstring`).  Generic
expressions keep their child expressions so that `generic_visit` can
descend into them.  Statements cover exactly the node kinds with a
dedicated `visit_*` method, plus `return`/expression statements/`pass`
as representatives of handler-less statements that `generic_visit`
descends through.  Expressions never contain statements, which mirrors
the Python AST fragment the tool can see (it defines no visitor for
`Lambda` bodies and never pushes scope inside expressions). -/

mutual
inductive Expr where
  | name (id : String)
  | attr (value : Expr) (attrName : String)
  | call (func : Expr) (args : ExprList)
  | strConst (s : String)
  | otherE (children : ExprList)
inductive ExprList where
  | nil
  | cons (e : Expr) (rest : ExprList)
end

/-- A single formal parameter: name and optional annotation expression. -/
structure PArg where
  argName : String
  ann : Option Expr

/-- The fields of `ast.arguments` that the source reads (it never touches
`vararg`/`kwarg`). -/
structure FArgs where
  posonlyargs : List PArg
  args : List PArg
  kwonlyargs : List PArg
  defaults : List Expr
  kwDefaults : List (Option Expr)

mutual
inductive Stmt where
  | classDef (name : String) (bases : List Expr) (decoratorList : List Expr)
      (body : StmtList)
  | functionDef (name : String) (fargs : FArgs) (returns : Option Expr)
      (decoratorList : List Expr) (body : StmtList)
  | assign (targets : List Expr) (value : Expr)
  | annAssign (target : Expr) (ann : Expr) (value : Option Expr)
  | importDirect (names : List String)
  | importFromM (moduleName : Option String) (names : List String)
  | exprStmt (e : Expr)
  | ifStmt (test : Expr) (body : StmtList) (orelse : StmtList)
  | forStmt (target : Expr) (iter : Expr) (body : StmtList) (orelse : StmtList)
  | whileStmt (test : Expr) (body : StmtList) (orelse : StmtList)
  | ret (value : Option Expr)
  | pass
inductive StmtList where
  | nil
  | cons (s : Stmt) (rest : StmtList)
end

/-- `CodeStructureExtractor._get_full_name` (lines 42-49): `Name` resolves
to its identifier, `Attribute` to `resolve(value) + "." + attr`, `Call` to
`resolve(func) + "(...)"`, anything else to the literal `"<?>"`. -/
def getFullName : Expr → String
  | .name i => i
  | .attr v a => getFullName v ++ "." ++ a
  | .call f _ => getFullName f ++ "(...)"
  | .strConst _ => "<?>"
  | .otherE _ => "<?>"

/-! ## The Structure data model (the `self.structure` dict) -/

/-- A `var_info` dict from `visit_Assign`/`visit_AnnAssign`; `ann = none`
models the plain-`Assign` dict that has no `"annotation"` key at all. -/
structure VarInfo where
  vname : String
  ann : Option String
  value : Option String
deriving DecidableEq

/-- A `func_info` dict from `visit_FunctionDef` (the `calls_made` field of
the source is initialised to an empty set and never used afterwards, so it
is omitted). -/
structure FuncInfo where
  fname : String
  fargs : List String
  docstring : Option String
  returnAnn : String
  decorators : List String
deriving DecidableEq

/-- A `class_info` dict from `visit_ClassDef`. -/
structure ClassInfo where
  cname : String
  methods : List FuncInfo
  bases : List String
  docstring : Option String
  attributes : List VarInfo
  decorators : List String
deriving DecidableEq

/-- The `structure["calls"]` defaultdict: association list in key insertion
order; each value models a Python set by a duplicate-free list in element
insertion order (only membership in the set is ever observable). -/
abbrev CallMap := List (String × List String)

/-- The `self.structure` dict. -/
structure Structure where
  module_name : String
  global_variables : List VarInfo
  classes : List ClassInfo
  functions : List FuncInfo
  directImports : List String
  fromImports : List String
  calls : CallMap
deriving DecidableEq

/-- `set.add` on the modelled callee set. -/
def insertCallee (cs : List String) (c : String) : List String :=
  if c ∈ cs then cs else cs ++ [c]

/-- `self.structure["calls"][caller_id].add(callee_id)` on the modelled
defaultdict (a missing key springs into existence at the end). -/
def addCallTo : CallMap → String → String → CallMap
  | [], k, c => [(k, [c])]
  | (k', cs) :: rest, k, c =>
    if k' = k then (k', insertCallee cs c) :: rest
    else (k', cs) :: addCallTo rest k c

/-! ## visit_FunctionDef's argument-list construction (lines 70-87) -/

/-- One entry of `args_list` before defaults are appended:
`f"{arg_name}{arg_annotation}"`. -/
def argPiece (a : PArg) : String :=
  a.argName ++ (match a.ann with
    | some e => ": " ++ getFullName e
    | none => "")

/-- `args_list[i] += s` for a Python `int` index, with Python's negative
index wraparound.  For the two default-binding loops the index is always in
`[-len, len)` (shown by arithmetic on the loop bounds), so the
out-of-range fallback (Python would raise `IndexError`) is unreachable
from `visit_FunctionDef` and modelled as a no-op. -/
def setAppend : List String → Nat → String → List String
  | [], _, _ => []
  | x :: xs, 0, s => (x ++ s) :: xs
  | x :: xs, k + 1, s => x :: setAppend xs k s

/-- List update at a Python `int` index (wraparound for negatives). -/
def updAt (l : List String) (i : Int) (s : String) : List String :=
  let n : Int := l.length
  let j : Int := if i < 0 then n + i else i
  if 0 ≤ j ∧ j < n then setAppend l j.toNat s else l

/-- `for i, default in enumerate(node.args.defaults[::-1]):
args_list[len(args_list) - 1 - i] += f"={...}"` (lines 80-81).
`len` is the (fixed) length of the full list; `ds` is passed reversed. -/
def applyDefaultsRev (l : List String) (len : Int) : List Expr → Int → List String
  | [], _ => l
  | d :: rest, i =>
    applyDefaultsRev (updAt l (len - 1 - i) ("=" ++ getFullName d)) len rest (i + 1)

/-- `for i, default in enumerate(node.args.kw_defaults[::-1]): if default:
args_list[len(args_list) - len(kwonlyargs) - 1 - i] += ...` (lines 84-87).
`i` advances even past `None` entries. -/
def applyKwDefaultsRev (l : List String) (len k : Int) :
    List (Option Expr) → Int → List String
  | [], _ => l
  | dOpt :: rest, i =>
    let l' := match dOpt with
      | some d => updAt l (len - k - 1 - i) ("=" ++ getFullName d)
      | none => l
    applyKwDefaultsRev l' len k rest (i + 1)

/-- The full `args_list` computation of `visit_FunctionDef` (lines 71-87):
pieces in posonly-positional-kwonly order, then the positional defaults
right-aligned against the end of the *whole* list, then the keyword-only
defaults written `len(kwonlyargs)` slots before the end. -/
def buildArgsList (a : FArgs) : List String :=
  let base := ((a.posonlyargs ++ a.args) ++ a.kwonlyargs).map argPiece
  let len : Int := base.length
  let withPos := applyDefaultsRev base len a.defaults.reverse 0
  if a.kwonlyargs.isEmpty then withPos
  else applyKwDefaultsRev withPos len a.kwonlyargs.length a.kwDefaults.reverse 0

/-- `ast.get_docstring`: the leading statement if it is a string constant
expression. -/
def getDocstring : StmtList → Option String
  | .cons (.exprStmt (.strConst s)) _ => some s
  | _ => none

/-- The `return_annotation` string (lines 89-91). -/
def returnAnnOf : Option Expr → String
  | some r => " -> " ++ getFullName r
  | none => ""

/-- The `func_info` dict built by `visit_FunctionDef` (lines 93-100);
`_get_full_name` never returns `None`, so the decorator comprehension's
filter keeps every element. -/
def mkFuncInfo (n : String) (a : FArgs) (rets : Option Expr)
    (decos : List Expr) (body : StmtList) : FuncInfo :=
  { fname := n
    fargs := buildArgsList a
    docstring := getDocstring body
    returnAnn := returnAnnOf rets
    decorators := decos.map getFullName }

/-- `isinstance(base, (ast.Name, ast.Attribute))`. -/
def isNameOrAttr : Expr → Bool
  | .name _ => true
  | .attr _ _ => true
  | _ => false

/-- The `class_info` dict built by `visit_ClassDef` (lines 56-63). -/
def mkClassInfo (n : String) (bases : List Expr) (decos : List Expr)
    (body : StmtList) : ClassInfo :=
  { cname := n
    methods := []
    bases := (bases.filter isNameOrAttr).map getFullName
    docstring := getDocstring body
    attributes := []
    decorators := decos.map getFullName }

/-! ## The traversal (`CodeStructureExtractor.visit` dispatch)

The visitor's mutable `self` becomes an explicit state.  Expressions
contain no statements, so while `generic_visit` walks an expression
subtree the scope stack and every field other than `calls` are constant;
the expression walk is therefore factored as a pure fold over the calls
map at a fixed caller scope id (exactly what `visit_Call` reads). -/

/-- The mutable visitor state: `self.structure` and `self.current_scope`. -/
structure ExtractState where
  struct : Structure
  currentScope : List String

/-- `CodeStructureExtractor._get_current_scope_id` (lines 37-40). -/
def scopeId (st : ExtractState) : String :=
  match st.currentScope with
  | [] => st.struct.module_name
  | l => joinDots l

mutual
/-- The calls recorded while `generic_visit`/`visit_Call` walk one
expression subtree under a fixed caller scope id `sid` (lines 162-166):
every `Call` node met anywhere in the subtree registers an edge from
`sid` to the resolved callee, then its children are walked too. -/
def exprCalls (sid : String) (m : CallMap) : Expr → CallMap
  | .name _ => m
  | .strConst _ => m
  | .attr v _ => exprCalls sid m v
  | .call f args => exprCallsL sid (exprCalls sid (addCallTo m sid (getFullName f)) f) args
  | .otherE cs => exprCallsL sid m cs
def exprCallsL (sid : String) (m : CallMap) : ExprList → CallMap
  | .nil => m
  | .cons e rest => exprCallsL sid (exprCalls sid m e) rest
end

/-- Fold `exprCalls` over a plain list of child expressions. -/
def exprCallsList (sid : String) (m : CallMap) (l : List Expr) : CallMap :=
  l.foldl (exprCalls sid) m

/-- Fold `exprCalls` over an optional child expression. -/
def optExprCalls (sid : String) (m : CallMap) : Option Expr → CallMap
  | some e => exprCalls sid m e
  | none => m

/-- `generic_visit` on the `ast.arguments` child of a `FunctionDef`:
annotations of posonly/positional args, annotations of kwonly args,
`kw_defaults`, `defaults` — the field order of `ast.arguments`. -/
def argsNodeCalls (sid : String) (m : CallMap) (a : FArgs) : CallMap :=
  let m := exprCallsList sid m ((a.posonlyargs ++ a.args).filterMap PArg.ann)
  let m := exprCallsList sid m (a.kwonlyargs.filterMap PArg.ann)
  let m := exprCallsList sid m (a.kwDefaults.filterMap id)
  exprCallsList sid m a.defaults

/-- Append a method to the first class record with the given name
(lines 104-108); no record matches ⇒ nothing happens. -/
def appendMethodFirst : List ClassInfo → String → FuncInfo → List ClassInfo
  | [], _, _ => []
  | c :: rest, n, fi =>
    if c.cname = n then { c with methods := c.methods ++ [fi] } :: rest
    else c :: appendMethodFirst rest n fi

/-- Append an attribute to the first class record with the given name
(lines 124-129 / 141-146); no record matches ⇒ nothing happens. -/
def attachAttrFirst : List ClassInfo → String → VarInfo → List ClassInfo
  | [], _, _ => []
  | c :: rest, n, vi =>
    if c.cname = n then { c with attributes := c.attributes ++ [vi] } :: rest
    else c :: attachAttrFirst rest n vi

/-- The classification of a function definition (lines 102-111): a method
of the first class record named like the innermost scope if there is one,
otherwise a global function. -/
def classifyFunc (st : ExtractState) (fi : FuncInfo) : ExtractState :=
  match st.currentScope.getLast? with
  | some top =>
    if top ∈ st.struct.classes.map ClassInfo.cname then
      { st with struct := { st.struct with
          classes := appendMethodFirst st.struct.classes top fi } }
    else
      { st with struct := { st.struct with
          functions := st.struct.functions ++ [fi] } }
  | none =>
    { st with struct := { st.struct with
        functions := st.struct.functions ++ [fi] } }

/-- The classification of an assignment target (lines 124-131 / 141-148):
an attribute of the first class record named like the innermost scope when
the scope stack is nonempty, otherwise a global variable. -/
def recordVar (st : ExtractState) (vi : VarInfo) : ExtractState :=
  match st.currentScope.getLast? with
  | some sn =>
    { st with struct := { st.struct with
        classes := attachAttrFirst st.struct.classes sn vi } }
  | none =>
    { st with struct := { st.struct with
        global_variables := st.struct.global_variables ++ [vi] } }

/-- Record the calls of an expression subtree into the state at the
current scope id. -/
def withExprCalls (st : ExtractState) (f : String → CallMap → CallMap) :
    ExtractState :=
  { st with struct := { st.struct with calls := f (scopeId st) st.struct.calls } }

/-- The `from`-import rendering of `visit_ImportFrom` (lines 156-160). -/
def fromImportName (moduleName : Option String) (n : String) : String :=
  let m := moduleName.getD ""
  if m = "" then n else m ++ "." ++ n

mutual
/-- One `self.visit(node)` dispatch on a statement, covering the visitor
methods `visit_ClassDef`, `visit_FunctionDef`, `visit_Assign`,
`visit_AnnAssign`, `visit_Import`, `visit_ImportFrom`, `visit_If`,
`visit_For`, `visit_While`, and `generic_visit` for the rest.  Child
nodes are visited in the Python AST field order of each node kind. -/
def visitStmt (st : ExtractState) : Stmt → ExtractState
  | .classDef n bases decos body =>
    let st1 := { st with struct := { st.struct with
        classes := st.struct.classes ++ [mkClassInfo n bases decos body] } }
    let st2 := { st1 with currentScope := st1.currentScope ++ [n] }
    let st3 := withExprCalls st2 (fun sid m => exprCallsList sid m bases)
    let st4 := visitStmts st3 body
    let st5 := withExprCalls st4 (fun sid m => exprCallsList sid m decos)
    { st5 with currentScope := st5.currentScope.dropLast }
  | .functionDef n fargs rets decos body =>
    let st1 := classifyFunc st (mkFuncInfo n fargs rets decos body)
    let st2 := { st1 with currentScope := st1.currentScope ++ [n] }
    let st3 := withExprCalls st2 (fun sid m => argsNodeCalls sid m fargs)
    let st4 := visitStmts st3 body
    let st5 := withExprCalls st4 (fun sid m => exprCallsList sid m decos)
    let st6 := withExprCalls st5 (fun sid m => optExprCalls sid m rets)
    { st6 with currentScope := st6.currentScope.dropLast }
  | .assign targets value =>
    let st1 := targets.foldl (fun acc t =>
      match t with
      | .name i => recordVar acc
          { vname := i, ann := none, value := some (getFullName value) }
      | _ => acc) st
    let st2 := withExprCalls st1 (fun sid m => exprCallsList sid m targets)
    withExprCalls st2 (fun sid m => exprCalls sid m value)
  | .annAssign target ann value =>
    let st1 := match target with
      | .name i => recordVar st
          { vname := i, ann := some (getFullName ann)
            value := value.map getFullName }
      | _ => st
    let st2 := withExprCalls st1 (fun sid m => exprCalls sid m target)
    let st3 := withExprCalls st2 (fun sid m => exprCalls sid m ann)
    withExprCalls st3 (fun sid m => optExprCalls sid m value)
  | .importDirect names =>
    { st with struct := { st.struct with
        directImports := st.struct.directImports ++ names } }
  | .importFromM moduleName names =>
    { st with struct := { st.struct with
        fromImports :=
          st.struct.fromImports ++ names.map (fromImportName moduleName) } }
  | .exprStmt e =>
    withExprCalls st (fun sid m => exprCalls sid m e)
  | .ifStmt test body orelse =>
    let st1 := withExprCalls st (fun sid m =>
      addCallTo m sid ("Condition: " ++ getFullName test))
    let st2 := withExprCalls st1 (fun sid m => exprCalls sid m test)
    let st3 := visitStmts st2 body
    visitStmts st3 orelse
  | .forStmt target iter body orelse =>
    let st1 := withExprCalls st (fun sid m =>
      addCallTo m sid ("For Loop: " ++ getFullName iter))
    let st2 := withExprCalls st1 (fun sid m => exprCalls sid m target)
    let st3 := withExprCalls st2 (fun sid m => exprCalls sid m iter)
    let st4 := visitStmts st3 body
    visitStmts st4 orelse
  | .whileStmt test body orelse =>
    let st1 := withExprCalls st (fun sid m =>
      addCallTo m sid ("While Loop: " ++ getFullName test))
    let st2 := withExprCalls st1 (fun sid m => exprCalls sid m test)
    let st3 := visitStmts st2 body
    visitStmts st3 orelse
  | .ret value =>
    withExprCalls st (fun sid m => optExprCalls sid m value)
  | .pass => st
/-- Visit the statements of a body in order. -/
def visitStmts (st : ExtractState) : StmtList → ExtractState
  | .nil => st
  | .cons s rest => visitStmts (visitStmt st s) rest
end

/-- The empty `self.structure` of `CodeStructureExtractor.__init__`
(the Python `module_name` starts as `None`; it is overwritten before it
is ever read, so the model starts from `""`). -/
def initStructure : Structure :=
  { module_name := ""
    global_variables := []
    classes := []
    functions := []
    directImports := []
    fromImports := []
    calls := [] }

/-- `visit_Module` (lines 51-53): unconditionally reset `module_name` to
`"Module"`, then walk the module body. -/
def visitModule (st : ExtractState) (body : StmtList) : ExtractState :=
  visitStmts
    { st with struct := { st.struct with module_name := "Module" } } body

/-- Lines 196-198 of `parse_python_file`: build the extractor, assign the
filename-derived module name, then `visit` the parsed `ast.Module`. -/
def runExtractor (fp : String) (body : StmtList) : Structure :=
  (visitModule
    { struct := { initStructure with module_name := moduleNameOfPath fp }
      currentScope := [] } body).struct

/-! ## parse_python_file (lines 184-203) -/

/-- A parse failure of `ast.parse`: `SyntaxError` or anything else. -/
inductive PFault where
  | syntaxErr (e : String)
  | otherErr (e : String)

/-- The file-system/parser environment of `parse_python_file`:
`os.path.exists`, `open(...).read()` (which may raise, carrying the
interpolated exception text), and `ast.parse`. -/
structure FileSys where
  pathExists : String → Bool
  readFile : String → Except String String
  parseSrc : String → Except PFault StmtList

/-- `parse_python_file(filepath)` (lines 184-203): the pair
`(structure-or-None, error-message-or-None)`. -/
def parsePythonFile (fs : FileSys) (fp : String) :
    Option Structure × Option String :=
  if fs.pathExists fp = false then
    (none, some ("Error: File does not exist '" ++ fp ++ "'"))
  else
    match fs.readFile fp with
    | .error e =>
      (none, some ("Error: Could not read file '" ++ fp ++ "': " ++ e))
    | .ok src =>
      match fs.parseSrc src with
      | .error (.syntaxErr e) =>
        (none, some ("Parsing error: File '" ++ fp ++
          "' contains syntax error: " ++ e))
      | .error (.otherErr e) =>
        (none, some ("An unknown error occurred during parsing: " ++ e))
      | .ok body => (some (runExtractor fp body), none)

/-! ## generate_graph_visualization (lines 290-440)

The graphviz `Digraph` is modelled as the ordered list of `node`
statements, the ordered list of `edge` statements, and the `all_nodes`
Python set.  Clusters only group the same node statements for layout and
are flattened.  The set is modelled by a list that is read only through
membership, so plain append is an adequate `set.add`. -/

/-- The graphviz shapes the source assigns; every placeholder node uses
the dashed default `box`, every declared entity a distinctive shape. -/
inductive NShape where
  | folder | note | ellipse | component | rectangle | octagon | box
deriving DecidableEq

/-- One `dot.node(...)` statement. -/
structure GNode where
  nid : String
  nlabel : String
  shape : NShape
  dashed : Bool
  color : String
deriving DecidableEq

/-- One `dot.edge(...)` statement; the `lbl` field is the edge label and
doubles as the edge kind (`defines`, `contains`, `has attribute`,
`contains method`, `calls`, `inherits`). -/
structure GEdge where
  src : String
  tgt : String
  lbl : String
deriving DecidableEq

/-- The graph under construction: node statements, edge statements and
the `all_nodes` set. -/
structure GGraph where
  nodes : List GNode
  allNodes : List String
  edges : List GEdge
deriving DecidableEq

/-- `dot.node(...)` followed by `all_nodes.add(...)`. -/
def emitNode (g : GGraph) (n : GNode) : GGraph :=
  { g with nodes := g.nodes ++ [n], allNodes := g.allNodes ++ [n.nid] }

/-- `dot.edge(...)`. -/
def emitEdge (g : GGraph) (e : GEdge) : GGraph :=
  { g with edges := g.edges ++ [e] }

/-- `f"module_{structure['module_name']}"`. -/
def moduleIdOf (mn : String) : String := "module_" ++ mn

/-- Python `", ".join`. -/
def joinCommas : List String → String
  | [] => ""
  | [x] => x
  | x :: xs => x ++ ", " ++ joinCommas xs

/-- The function-node label of lines 331-333. -/
def funcLabel (f : FuncInfo) : String :=
  let base := "Function: " ++ f.fname ++ "(\n" ++
    joinCommas f.fargs ++ ")" ++ f.returnAnn
  if f.decorators.isEmpty then base
  else "Decorators: " ++ joinCommas f.decorators ++ "\n" ++ base

/-- The class-node label of line 347. -/
def classLabel (c : ClassInfo) : String :=
  "Class: " ++ c.cname ++
    (if c.bases.isEmpty then "" else "(" ++ joinCommas c.bases ++ ")")

/-- The attribute-node label of lines 353-357. -/
def attrLabel (a : VarInfo) : String :=
  let l := "Attribute: " ++ a.vname
  let l := match a.ann with
    | some an => if an ≠ "" then l ++ ": " ++ an else l
    | none => l
  match a.value with
  | some v => l ++ " = " ++ v
  | none => l

/-- The method-node label of lines 366-368. -/
def methodLabel (m : FuncInfo) : String :=
  let base := "Method: " ++ m.fname ++ "(\n" ++
    joinCommas m.fargs ++ ")" ++ m.returnAnn
  if m.decorators.isEmpty then base
  else "Decorators: " ++ joinCommas m.decorators ++ "\n" ++ base

/-- The declared-entity node statements of lines 314-371, in emission
order: module, global-variables group, global functions, then per class
the class node, its attributes and its methods.  No conditional in this
phase reads `all_nodes`, so the loops are written as one concatenation. -/
def declaredNodes (S : Structure) : List GNode :=
  let mid := moduleIdOf S.module_name
  [⟨mid, "Module: " ++ S.module_name, .folder, false, "#ADD8E6"⟩] ++
  (if S.global_variables.isEmpty then []
   else [⟨mid ++ "_globals", "Global Variables", .note, false, "grey"⟩]) ++
  S.functions.map (fun f =>
    ⟨mid ++ "." ++ f.fname, funcLabel f, .ellipse, false, "#90EE90"⟩) ++
  S.classes.flatMap (fun c =>
    let cid := mid ++ "." ++ c.cname
    ⟨cid, classLabel c, .component, false, "#FFD700"⟩ ::
    (c.attributes.map (fun a =>
      ⟨cid ++ "." ++ a.vname, attrLabel a, .rectangle, false, "#D3D3D3"⟩) ++
     c.methods.map (fun m =>
      ⟨cid ++ "." ++ m.fname, methodLabel m, .octagon, false, "#FFB6C1"⟩)))

/-- The structural edge statements emitted alongside `declaredNodes`. -/
def declaredEdges (S : Structure) : List GEdge :=
  let mid := moduleIdOf S.module_name
  (if S.global_variables.isEmpty then []
   else [⟨mid, mid ++ "_globals", "defines"⟩]) ++
  S.functions.map (fun f => ⟨mid, mid ++ "." ++ f.fname, "contains"⟩) ++
  S.classes.flatMap (fun c =>
    let cid := mid ++ "." ++ c.cname
    ⟨mid, cid, "contains"⟩ ::
    (c.attributes.map (fun a => ⟨cid, cid ++ "." ++ a.vname, "has attribute"⟩) ++
     c.methods.map (fun m => ⟨cid, cid ++ "." ++ m.fname, "contains method"⟩)))

/-- The graph after the declared-entity phase. -/
def buildDeclared (S : Structure) : GGraph :=
  { nodes := declaredNodes S
    allNodes := (declaredNodes S).map GNode.nid
    edges := declaredEdges S }

/-- Lines 378-381: a dashed gray box for one callee descriptor when it is
not already a node, keyed by its raw text. -/
def placeholderStep (g : GGraph) (c : String) : GGraph :=
  if c ∈ g.allNodes then g
  else emitNode g ⟨c, c, .box, true, "gray"⟩

/-- Lines 376-381: the placeholder pass over every recorded callee. -/
def addCalleePlaceholders (g : GGraph) (calls : CallMap) : GGraph :=
  calls.foldl (fun g kv => kv.2.foldl placeholderStep g) g

/-- Lines 387-394: the caller node id from the dot-split scope id; four
or more components leave `caller_id` as the empty string. -/
def callerIdOf (mn caller : String) : String :=
  match splitDots caller with
  | [p0] => if p0 ≠ mn then moduleIdOf mn ++ "." ++ p0 else moduleIdOf mn
  | [p0, p1] => moduleIdOf mn ++ "." ++ p0 ++ "." ++ p1
  | [p0, p1, p2] => moduleIdOf mn ++ "." ++ p0 ++ "." ++ p1 ++ "." ++ p2
  | _ => ""

/-- Lines 407-418: resolve a callee descriptor against the current node
set — module-qualified id first, then the first class whose
method-qualified id is a node, else the raw descriptor. -/
def resolveCallee (mn : String) (classes : List ClassInfo)
    (allNodes : List String) (callee : String) : String :=
  if (moduleIdOf mn ++ "." ++ callee) ∈ allNodes then
    moduleIdOf mn ++ "." ++ callee
  else
    match classes.find? (fun c =>
      decide ((moduleIdOf mn ++ "." ++ c.cname ++ "." ++ callee) ∈ allNodes)) with
    | some c => moduleIdOf mn ++ "." ++ c.cname ++ "." ++ callee
    | none => callee

/-- Lines 405-421 for one callee under a fixed effective caller id: emit
one `calls` edge when the resolved callee id and the caller id are both
nonempty (Python truthiness) and distinct. -/
def callStep (mn : String) (classes : List ClassInfo) (cid : String)
    (g : GGraph) (c : String) : GGraph :=
  let tid := resolveCallee mn classes g.allNodes c
  if cid ≠ "" ∧ tid ≠ "" ∧ cid ≠ tid then emitEdge g ⟨cid, tid, "calls"⟩
  else g

/-- Lines 385-421 for one `(caller, callees)` entry: fix the caller id
(synthesizing a red dashed placeholder when it is not a node and the
caller is not the module itself), then run `callStep` over the callees. -/
def processEntry (mn : String) (classes : List ClassInfo) (g : GGraph)
    (caller : String) (callees : List String) : GGraph :=
  let cid0 := callerIdOf mn caller
  let gp : GGraph × String :=
    if cid0 ∈ g.allNodes then (g, cid0)
    else if caller = mn ∧ moduleIdOf mn ∈ g.allNodes then (g, moduleIdOf mn)
    else (emitNode g ⟨cid0, caller, .box, true, "red"⟩, cid0)
  callees.foldl (callStep mn classes gp.2) gp.1

/-- The whole call-edge phase. -/
def addCallEdges (mn : String) (classes : List ClassInfo) (g : GGraph)
    (calls : CallMap) : GGraph :=
  calls.foldl (fun g kv => processEntry mn classes g kv.1 kv.2) g

/-- Lines 426-431 for one base of the class with node id `cid`:
synthesize a grey dashed placeholder when the module-qualified base id is
not a node, then emit an `inherits` edge from base to class — with no
self-loop guard. -/
def inheritStep (mn cid : String) (g : GGraph) (base : String) : GGraph :=
  let bid := moduleIdOf mn ++ "." ++ base
  let g := if bid ∈ g.allNodes then g
           else emitNode g ⟨bid, base, .box, true, "grey"⟩
  emitEdge g ⟨bid, cid, "inherits"⟩

/-- Lines 424-431: the inheritance pass over every class and base. -/
def addInheritEdges (mn : String) (g : GGraph) (classes : List ClassInfo) :
    GGraph :=
  classes.foldl (fun g c =>
    c.bases.foldl (inheritStep mn (moduleIdOf mn ++ "." ++ c.cname)) g) g

/-- The complete graph model built from a `Structure` (lines 294-431). -/
def buildGraph (S : Structure) : GGraph :=
  addInheritEdges S.module_name
    (addCallEdges S.module_name S.classes
      (addCalleePlaceholders (buildDeclared S) S.calls) S.calls)
    S.classes

/-- A fault of `dot.render`: the graphviz executable is missing, or any
other rendering exception (carrying its text). -/
inductive RenderFault where
  | execNotFound
  | otherFault (e : String)

/-- The external layout engine behind `dot.render(...)`: given the graph,
the destination path and the format, it either returns the final artifact
path or fails. -/
structure RenderEnv where
  render : GGraph → String → String → Except RenderFault String

/-- `generate_graph_visualization(structure, output_filepath, format)`
(lines 290-440): the pair `(artifact-path-or-None, message-or-None)`. -/
def generateGraphVisualization (env : RenderEnv) (S? : Option Structure)
    (outPath fmt : String) : Option String × Option String :=
  match S? with
  | none => (none, some "No graph can be generated.")
  | some S =>
    match env.render (buildGraph S) outPath fmt with
    | .ok p => (some p, some ("Visualization graph saved to: " ++ p))
    | .error .execNotFound =>
      (none, some ("Error: Graphviz executable (dot) not found. " ++
        "Please ensure Graphviz is installed and added to your system's PATH."))
    | .error (.otherFault e) =>
      (none, some ("Error generating graph: " ++ e))

/-! ## Specification-side definitions

These follow the specification's words (not the source) and exist solely
to be compared with the source-derived definitions above. -/

/-- Spec side: "the file's base name without its extension" — the base
name up to (excluding) its last dot, or the whole base name if it has no
dot. -/
def specStemOfPath (fp : String) : String :=
  let l := (pyBasename fp).data
  if '.' ∈ l then ⟨(((l.reverse.dropWhile (· ≠ '.')).drop 1)).reverse⟩
  else ⟨l⟩

/-- Spec side: "defaults bind to the trailing N argument slots (N =
number of defaults), right-aligned; keyword-only defaults bind to the
trailing K keyword-only slots independently" — the argument list the
specification's right-alignment rule prescribes. -/
def specArgsList (a : FArgs) : List String :=
  let pos := ((a.posonlyargs ++ a.args)).map argPiece
  let n := a.defaults.length
  let posDone := pos.take (pos.length - n) ++
    (pos.drop (pos.length - n)).zipWith
      (fun p d => p ++ "=" ++ getFullName d) a.defaults
  let kw := a.kwonlyargs.map argPiece
  let k := a.kwDefaults.length
  let kwDone := kw.take (kw.length - k) ++
    (kw.drop (kw.length - k)).zipWith
      (fun p dOpt => match dOpt with
        | some d => p ++ "=" ++ getFullName d
        | none => p) a.kwDefaults
  posDone ++ kwDone

mutual
/-- Spec side: the names of all class definitions in one statement, in
depth-first registration order (a class is registered on entry, before
its body). -/
def cnames : Stmt → List String
  | .classDef n _ _ body => n :: cnamesL body
  | .functionDef _ _ _ _ body => cnamesL body
  | .ifStmt _ b o => cnamesL b ++ cnamesL o
  | .forStmt _ _ b o => cnamesL b ++ cnamesL o
  | .whileStmt _ b o => cnamesL b ++ cnamesL o
  | _ => []
/-- Spec side: `cnames` over a statement list. -/
def cnamesL : StmtList → List String
  | .nil => []
  | .cons s rest => cnames s ++ cnamesL rest
end

mutual
/-- Spec side: the names of all function definitions in one statement. -/
def fnames : Stmt → List String
  | .classDef _ _ _ body => fnamesL body
  | .functionDef n _ _ _ body => n :: fnamesL body
  | .ifStmt _ b o => fnamesL b ++ fnamesL o
  | .forStmt _ _ b o => fnamesL b ++ fnamesL o
  | .whileStmt _ b o => fnamesL b ++ fnamesL o
  | _ => []
/-- Spec side: `fnames` over a statement list. -/
def fnamesL : StmtList → List String
  | .nil => []
  | .cons s rest => fnames s ++ fnamesL rest
end

mutual
/-- Spec side: every function definition of a statement, in source
(depth-first) order, each paired with the name of its immediate enclosing
class-or-function scope (`p` at the outermost level).  This is the
reading of "the top of the scope stack at the definition site" used by
the specification's method-classification rule. -/
def specEncFuncs (p : Option String) : Stmt → List (Option String × FuncInfo)
  | .classDef n _ _ body => specEncFuncsL (some n) body
  | .functionDef n fargs rets decos body =>
    (p, mkFuncInfo n fargs rets decos body) :: specEncFuncsL (some n) body
  | .ifStmt _ b o => specEncFuncsL p b ++ specEncFuncsL p o
  | .forStmt _ _ b o => specEncFuncsL p b ++ specEncFuncsL p o
  | .whileStmt _ b o => specEncFuncsL p b ++ specEncFuncsL p o
  | _ => []
/-- Spec side: `specEncFuncs` over a statement list. -/
def specEncFuncsL (p : Option String) : StmtList → List (Option String × FuncInfo)
  | .nil => []
  | .cons s rest => specEncFuncs p s ++ specEncFuncsL p rest
end

/-- Spec side: the function records whose immediate enclosing scope name
is `n`, among `l`, in order. -/
def methodsFor (n : String) (l : List (Option String × FuncInfo)) :
    List FuncInfo :=
  (l.filter (fun q => q.1 = some n)).map Prod.snd

/-- Spec side: the function records whose immediate enclosing scope name
is not the name of any class in `regNames`, among `l`, in order. -/
def globalsFor (regNames : List String) (l : List (Option String × FuncInfo)) :
    List FuncInfo :=
  (l.filter (fun q => match q.1 with
    | some n => decide (n ∉ regNames)
    | none => true)).map Prod.snd

/-- A left-nested attribute-access chain `e.m₁.m₂...mₖ` (used to state
the arbitrary-depth clause of the name-resolver claim). -/
def attrChain (e : Expr) (ms : List String) : Expr :=
  ms.foldl Expr.attr e

/-- `t` occurs as a contiguous substring of `s`. -/
def strIn (t s : String) : Prop :=
  ∃ a b : List Char, s.data = a ++ t.data ++ b

/-! ## Concrete inputs used by counterexamples and witnesses -/

/-- `def f(a, b=two, *, c=three)`: positional default `two` on `b`,
keyword-only default `three` on `c`. -/
def exArgsC2 : FArgs :=
  { posonlyargs := []
    args := [⟨"a", none⟩, ⟨"b", none⟩]
    kwonlyargs := [⟨"c", none⟩]
    defaults := [.name "two"]
    kwDefaults := [some (.name "three")] }

/-- A structure whose single class lists itself as a base
(extracted from `class A(A): pass`). -/
def structSelfBase : Structure :=
  { module_name := "m"
    global_variables := []
    classes := [{ cname := "A", methods := [], bases := ["A"]
                  docstring := none, attributes := [], decorators := [] }]
    functions := []
    directImports := []
    fromImports := []
    calls := [] }

/-- A structure with two distinct class declarations sharing the name
`A` (extracted from `class A: pass` written twice). -/
def structDupClasses : Structure :=
  { module_name := "m"
    global_variables := []
    classes := [{ cname := "A", methods := [], bases := []
                  docstring := none, attributes := [], decorators := [] },
                { cname := "A", methods := [], bases := ["B"]
                  docstring := none, attributes := [], decorators := [] }]
    functions := []
    directImports := []
    fromImports := []
    calls := [] }

/-- A structure recording one call whose caller scope id has four
dot-joined components. -/
def structDeepCaller : Structure :=
  { module_name := "m"
    global_variables := []
    classes := []
    functions := []
    directImports := []
    fromImports := []
    calls := [("a.b.c.d", ["foo"])] }

/-- A structure recording one module-level call to an external `f`. -/
def structSimpleCall : Structure :=
  { module_name := "m"
    global_variables := []
    classes := []
    functions := []
    directImports := []
    fromImports := []
    calls := [("m", ["f"])] }

/-- A module body declaring `class A` twice, the second time with a
method `m` (`class A: pass` then `class A:` containing `def m(self)`). -/
def bodyDupClasses : StmtList :=
  .cons (.classDef "A" [] [] .nil)
    (.cons (.classDef "A" [] []
      (.cons (.functionDef "m" ⟨[], [⟨"self", none⟩], [], [], []⟩ none [] .nil)
        .nil))
      .nil)

/-- A module body with `class A` containing methods `m1`, `m2`, and a
global function `g` (the shape of the specification's class example). -/
def bodyClassTwoMethods : StmtList :=
  .cons (.classDef "A" [.name "B"] []
    (.cons (.functionDef "m1" ⟨[], [⟨"self", none⟩], [], [], []⟩ none [] .nil)
      (.cons (.functionDef "m2" ⟨[], [⟨"self", none⟩], [], [], []⟩ none [] .nil)
        .nil)))
    (.cons (.functionDef "g" ⟨[], [], [], [], []⟩ none [] .nil) .nil)

/-- A file system on which every path exists, reading yields an empty
source and parsing yields an empty module. -/
def fsAlwaysEmpty : FileSys :=
  { pathExists := fun _ => true
    readFile := fun _ => .ok ""
    parseSrc := fun _ => .ok .nil }

/-- A file system on which no path exists. -/
def fsNothing : FileSys :=
  { pathExists := fun _ => false
    readFile := fun _ => .error "unreachable"
    parseSrc := fun _ => .error (.otherErr "unreachable") }

/-- Whether a node is a declared-entity node (every synthesized
placeholder is a dashed `box`; every declared entity has a distinctive
shape). -/
def nonBox (n : GNode) : Bool := decide (n.shape ≠ NShape.box)

/-- A structure with one global variable, a global function `f`, and a
class `A` with attribute `x` and method `m` — all names distinct and
dot-free. -/
def structC4Witness : Structure :=
  { module_name := "m"
    global_variables := [{ vname := "gv", ann := none, value := some "one" }]
    classes := [{ cname := "A"
                  methods := [{ fname := "m", fargs := ["self"],
                                docstring := none, returnAnn := "",
                                decorators := [] }]
                  bases := []
                  docstring := none
                  attributes := [{ vname := "x", ann := none,
                                   value := some "two" }]
                  decorators := [] }]
    functions := [{ fname := "f", fargs := [], docstring := none,
                    returnAnn := "", decorators := [] }]
    directImports := []
    fromImports := []
    calls := [] }

/-- A name with no dot in it (the shape of every identifier the parser
can produce for a class, function, attribute or method name). -/
def noDotStr (s : String) : Prop := '.' ∉ s.data

instance (s : String) : Decidable (noDotStr s) :=
  inferInstanceAs (Decidable ('.' ∉ s.data))

/-- The calls-edge invariant: every `calls` edge has distinct endpoints. -/
def CallsEdgesOk (g : GGraph) : Prop :=
  ∀ e ∈ g.edges, e.lbl = "calls" → e.src ≠ e.tgt

/-- The (name, methods) projection of a class record, the part of the
class record the method-classification claim talks about. -/
def projCM (c : ClassInfo) : String × List FuncInfo := (c.cname, c.methods)

/-! ## Basic lemmas -/

theorem dataAppend (a b : String) : (a ++ b).data = a.data ++ b.data := by
  cases a; cases b; rfl

theorem strIn_append (a t b : String) : strIn t (a ++ t ++ b) :=
  ⟨a.data, b.data, by simp [dataAppend]⟩

theorem strIn_of_eq (t s a b : String) (h : s = a ++ t ++ b) : strIn t s :=
  h ▸ strIn_append a t b

theorem strAssoc (a b c : String) : a ++ b ++ c = a ++ (b ++ c) := by
  cases a; cases b; cases c
  show String.mk _ = String.mk _
  simp [String.append, List.append_assoc]

/-! ### Scope-stack preservation -/

theorem scope_withExprCalls (st : ExtractState) (f : String → CallMap → CallMap) :
    (withExprCalls st f).currentScope = st.currentScope := rfl

theorem scope_classifyFunc (st : ExtractState) (fi : FuncInfo) :
    (classifyFunc st fi).currentScope = st.currentScope := by
  unfold classifyFunc
  cases st.currentScope.getLast? with
  | none => rfl
  | some top =>
    by_cases h : top ∈ st.struct.classes.map ClassInfo.cname <;> simp [h]

theorem scope_recordVar (st : ExtractState) (vi : VarInfo) :
    (recordVar st vi).currentScope = st.currentScope := by
  unfold recordVar
  cases st.currentScope.getLast? <;> rfl

theorem scope_assignFold (targets : List Expr) (value : Expr) :
    ∀ st : ExtractState,
      (targets.foldl (fun acc t =>
        match t with
        | .name i => recordVar acc
            { vname := i, ann := none, value := some (getFullName value) }
        | _ => acc) st).currentScope = st.currentScope := by
  induction targets with
  | nil => intro st; rfl
  | cons t ts ih =>
    intro st
    rw [List.foldl_cons, ih]
    cases t <;> simp [scope_recordVar]

mutual
theorem visitStmt_scope : ∀ (s : Stmt) (st : ExtractState),
    (visitStmt st s).currentScope = st.currentScope
  | .classDef n bases decos body, st => by
    simp only [visitStmt, scope_withExprCalls, visitStmts_scope body,
      List.dropLast_concat]
  | .functionDef n fargs rets decos body, st => by
    simp only [visitStmt, scope_withExprCalls, visitStmts_scope body,
      scope_classifyFunc, List.dropLast_concat]
  | .assign targets value, st => by
    simp only [visitStmt, scope_withExprCalls, scope_assignFold]
  | .annAssign target ann value, st => by
    simp only [visitStmt, scope_withExprCalls]
    cases target <;> simp [scope_recordVar]
  | .importDirect ns, st => rfl
  | .importFromM m ns, st => rfl
  | .exprStmt e, st => rfl
  | .ifStmt t b o, st => by
    simp only [visitStmt, scope_withExprCalls, visitStmts_scope b,
      visitStmts_scope o]
  | .forStmt tg it b o, st => by
    simp only [visitStmt, scope_withExprCalls, visitStmts_scope b,
      visitStmts_scope o]
  | .whileStmt t b o, st => by
    simp only [visitStmt, scope_withExprCalls, visitStmts_scope b,
      visitStmts_scope o]
  | .ret v, st => rfl
  | .pass, st => rfl
theorem visitStmts_scope : ∀ (l : StmtList) (st : ExtractState),
    (visitStmts st l).currentScope = st.currentScope
  | .nil, st => rfl
  | .cons s rest, st => by
    rw [visitStmts, visitStmts_scope rest, visitStmt_scope s]
end

/-! ### Module-name preservation during the walk -/

theorem mname_withExprCalls (st : ExtractState) (f : String → CallMap → CallMap) :
    (withExprCalls st f).struct.module_name = st.struct.module_name := rfl

theorem mname_classifyFunc (st : ExtractState) (fi : FuncInfo) :
    (classifyFunc st fi).struct.module_name = st.struct.module_name := by
  unfold classifyFunc
  cases st.currentScope.getLast? with
  | none => rfl
  | some top =>
    by_cases h : top ∈ st.struct.classes.map ClassInfo.cname <;> simp [h]

theorem mname_recordVar (st : ExtractState) (vi : VarInfo) :
    (recordVar st vi).struct.module_name = st.struct.module_name := by
  unfold recordVar
  cases st.currentScope.getLast? <;> rfl

theorem mname_assignFold (targets : List Expr) (value : Expr) :
    ∀ st : ExtractState,
      (targets.foldl (fun acc t =>
        match t with
        | .name i => recordVar acc
            { vname := i, ann := none, value := some (getFullName value) }
        | _ => acc) st).struct.module_name = st.struct.module_name := by
  induction targets with
  | nil => intro st; rfl
  | cons t ts ih =>
    intro st
    rw [List.foldl_cons, ih]
    cases t <;> simp [mname_recordVar]

mutual
theorem visitStmt_mname : ∀ (s : Stmt) (st : ExtractState),
    (visitStmt st s).struct.module_name = st.struct.module_name
  | .classDef n bases decos body, st => by
    simp only [visitStmt, mname_withExprCalls, visitStmts_mname body]
  | .functionDef n fargs rets decos body, st => by
    simp only [visitStmt, mname_withExprCalls, visitStmts_mname body,
      mname_classifyFunc]
  | .assign targets value, st => by
    simp only [visitStmt, mname_withExprCalls, mname_assignFold]
  | .annAssign target ann value, st => by
    simp only [visitStmt, mname_withExprCalls]
    cases target <;> simp [mname_recordVar]
  | .importDirect ns, st => rfl
  | .importFromM m ns, st => rfl
  | .exprStmt e, st => rfl
  | .ifStmt t b o, st => by
    simp only [visitStmt, mname_withExprCalls, visitStmts_mname b,
      visitStmts_mname o]
  | .forStmt tg it b o, st => by
    simp only [visitStmt, mname_withExprCalls, visitStmts_mname b,
      visitStmts_mname o]
  | .whileStmt t b o, st => by
    simp only [visitStmt, mname_withExprCalls, visitStmts_mname b,
      visitStmts_mname o]
  | .ret v, st => rfl
  | .pass, st => rfl
theorem visitStmts_mname : ∀ (l : StmtList) (st : ExtractState),
    (visitStmts st l).struct.module_name = st.struct.module_name
  | .nil, st => rfl
  | .cons s rest, st => by
    rw [visitStmts, visitStmts_mname rest, visitStmt_mname s]
end

/-- After the full pass, the module name is always the literal `"Module"`
that `visit_Module` wrote. -/
theorem runExtractor_module_name (fp : String) (body : StmtList) :
    (runExtractor fp body).module_name = "Module" := by
  unfold runExtractor visitModule
  rw [visitStmts_mname]

/-! ## Claim theorems (first batch) -/

/-- C2: the claim says positional defaults bind right-aligned among the
positional parameters and keyword-only defaults bind to the trailing
keyword-only slots.  The code instead right-aligns positional defaults
against the end of the whole argument list (which ends with the
keyword-only slots) and writes keyword-only defaults
`len(kwonlyargs)` slots too early: on `def f(a, b=two, *, c=three)` the
extractor emits `["a", "b=three", "c=two"]` where the claim's rule (and
Python's own semantics, which the surrounding comments intend) gives
`["a", "b=two", "c=three"]`. -/
theorem C2_default_binding_eval :
    buildArgsList exArgsC2 = ["a", "b=three", "c=two"] ∧
    specArgsList exArgsC2 = ["a", "b=two", "c=three"] ∧
    buildArgsList exArgsC2 ≠ specArgsList exArgsC2 :=
  ⟨by decide, by decide, by decide⟩

/-- C8: `_get_full_name` is a pure total function: identifiers resolve to
their text, attribute accesses to `resolve(base) ++ "." ++ member`
recursively (hence attribute chains of arbitrary depth fold to the dotted
join), call expressions to `resolve(callee) ++ "(...)"`, and every other
expression kind (string constants and generic nodes alike) to the fixed
placeholder `"<?>"`. -/
theorem C8_name_resolver :
    (∀ i, getFullName (Expr.name i) = i) ∧
    (∀ v a, getFullName (Expr.attr v a) = getFullName v ++ "." ++ a) ∧
    (∀ f args, getFullName (Expr.call f args) = getFullName f ++ "(...)") ∧
    (∀ s, getFullName (Expr.strConst s) = "<?>") ∧
    (∀ cs, getFullName (Expr.otherE cs) = "<?>") ∧
    (∀ (e : Expr) (ms : List String),
      getFullName (attrChain e ms) =
        ms.foldl (fun acc m => acc ++ "." ++ m) (getFullName e)) := by
  refine ⟨fun _ => rfl, fun _ _ => rfl, fun _ _ => rfl, fun _ => rfl,
    fun _ => rfl, ?_⟩
  intro e ms
  induction ms generalizing e with
  | nil => rfl
  | cons m ms ih => simpa [attrChain] using ih (Expr.attr e m)

/-- C6: for every path reported absent by the file system,
`parse_python_file` returns no structure and the fixed message
interpolating the path, and it does so for every possible read/parse
behaviour (the result does not depend on `readFile` or `parseSrc`, i.e.
the check precedes any read or parse attempt); the message contains both
the path and the text "does not exist". -/
theorem C6_not_found (pe : String → Bool) (rf : String → Except String String)
    (ps : String → Except PFault StmtList) (fp : String)
    (h : pe fp = false) :
    parsePythonFile ⟨pe, rf, ps⟩ fp =
      (none, some ("Error: File does not exist '" ++ fp ++ "'")) ∧
    strIn fp ("Error: File does not exist '" ++ fp ++ "'") ∧
    strIn "does not exist" ("Error: File does not exist '" ++ fp ++ "'") := by
  refine ⟨by simp [parsePythonFile, h], strIn_append _ _ _, ?_⟩
  refine strIn_of_eq _ _ "Error: File " (" '" ++ fp ++ "'") ?_
  have hlit : "Error: File does not exist '" =
      "Error: File " ++ "does not exist" ++ " '" := by decide
  simp only [hlit, strAssoc]

/-- C6 witness: instantiation at the absent path `/p/absent.py`. -/
theorem C6_not_found_witness :
    fsNothing.pathExists "/p/absent.py" = false ∧
    (parsePythonFile fsNothing "/p/absent.py" =
      (none, some ("Error: File does not exist '" ++ "/p/absent.py" ++ "'")) ∧
     strIn "/p/absent.py" ("Error: File does not exist '" ++ "/p/absent.py" ++ "'") ∧
     strIn "does not exist" ("Error: File does not exist '" ++ "/p/absent.py" ++ "'")) :=
  ⟨rfl, C6_not_found (fun _ => false) (fun _ => .error "unreachable")
    (fun _ => .error (.otherErr "unreachable")) "/p/absent.py" rfl⟩

/-- C9: both public operations are total functions of their (modelled)
environment — every environment fault, including read errors, syntax
errors, unknown parse faults and rendering exceptions, is mapped to a
returned message — and each returns either a complete result (for the
renderer, together with its success message) or no result paired with a
message. -/
theorem C9_result_or_message :
    (∀ (fs : FileSys) (fp : String),
      (∃ S, parsePythonFile fs fp = (some S, none)) ∨
      (∃ m, parsePythonFile fs fp = (none, some m))) ∧
    (∀ (env : RenderEnv) (S? : Option Structure) (outPath fmt : String),
      (∃ p, generateGraphVisualization env S? outPath fmt =
        (some p, some ("Visualization graph saved to: " ++ p))) ∨
      (∃ m, generateGraphVisualization env S? outPath fmt = (none, some m))) := by
  constructor
  · intro fs fp
    cases h : fs.pathExists fp with
    | false =>
      exact Or.inr ⟨"Error: File does not exist '" ++ fp ++ "'",
        by simp [parsePythonFile, h]⟩
    | true =>
      cases hr : fs.readFile fp with
      | error e =>
        exact Or.inr ⟨"Error: Could not read file '" ++ fp ++ "': " ++ e,
          by simp [parsePythonFile, h, hr]⟩
      | ok src =>
        cases hp : fs.parseSrc src with
        | error f =>
          cases f with
          | syntaxErr e =>
            exact Or.inr ⟨"Parsing error: File '" ++ fp ++
              "' contains syntax error: " ++ e,
              by simp [parsePythonFile, h, hr, hp]⟩
          | otherErr e =>
            exact Or.inr ⟨"An unknown error occurred during parsing: " ++ e,
              by simp [parsePythonFile, h, hr, hp]⟩
        | ok body =>
          exact Or.inl ⟨runExtractor fp body,
            by simp [parsePythonFile, h, hr, hp]⟩
  · intro env S? outPath fmt
    cases S? with
    | none => exact Or.inr ⟨"No graph can be generated.", rfl⟩
    | some S =>
      cases hr : env.render (buildGraph S) outPath fmt with
      | ok p => exact Or.inl ⟨p, by simp [generateGraphVisualization, hr]⟩
      | error f =>
        cases f with
        | execNotFound =>
          exact Or.inr ⟨"Error: Graphviz executable (dot) not found. " ++
            "Please ensure Graphviz is installed and added to your system's PATH.",
            by simp [generateGraphVisualization, hr]⟩
        | otherFault e =>
          exact Or.inr ⟨"Error generating graph: " ++ e,
            by simp [generateGraphVisualization, hr]⟩

/-- C1: the claim says `module_name` equals the base name without its
extension.  In the code, `parse_python_file` first assigns the
filename-derived name and then `extractor.visit(tree)` dispatches to
`visit_Module`, which unconditionally overwrites it with the literal
`"Module"` (its own comment "Default if not set later from filename"
shows the overwrite is a slip): after every successful pass,
`module_name` is `"Module"`, whatever the path was. -/
theorem C1_module_name_eval (fs : FileSys) (fp src : String) (body : StmtList)
    (h1 : fs.pathExists fp = true) (h2 : fs.readFile fp = .ok src)
    (h3 : fs.parseSrc src = .ok body) :
    parsePythonFile fs fp = (some (runExtractor fp body), none) ∧
    (runExtractor fp body).module_name = "Module" := by
  constructor
  · simp [parsePythonFile, h1, h2, h3]
  · exact runExtractor_module_name fp body

/-- C1 witness: the existing, readable, empty-module file `/p/foo.py`
yields `module_name = "Module"`, while the base name without extension
is `"foo"`. -/
theorem C1_module_name_eval_witness :
    (fsAlwaysEmpty.pathExists "/p/foo.py" = true ∧
     fsAlwaysEmpty.readFile "/p/foo.py" = .ok "" ∧
     fsAlwaysEmpty.parseSrc "" = .ok .nil) ∧
    (parsePythonFile fsAlwaysEmpty "/p/foo.py" =
      (some (runExtractor "/p/foo.py" .nil), none) ∧
     (runExtractor "/p/foo.py" StmtList.nil).module_name = "Module") ∧
    specStemOfPath "/p/foo.py" = "foo" ∧ ("Module" : String) ≠ "foo" :=
  ⟨⟨rfl, rfl, rfl⟩,
   C1_module_name_eval fsAlwaysEmpty "/p/foo.py" "" .nil rfl rfl rfl,
   by decide, by decide⟩

/-- C10: the scope stack is balanced: visiting any statement (in
particular any class or function definition, which pushes exactly one
name before descending and pops it afterwards) leaves the stack equal to
its value on entry; visiting any statement list does too; consequently
the stack is empty whenever control is back at module level during the
full pass, which starts from the empty stack. -/
theorem C10_scope_balanced :
    (∀ (st : ExtractState) (s : Stmt),
      (visitStmt st s).currentScope = st.currentScope) ∧
    (∀ (st : ExtractState) (l : StmtList),
      (visitStmts st l).currentScope = st.currentScope) ∧
    (∀ (fp : String) (body : StmtList),
      (visitModule
        { struct := { initStructure with module_name := moduleNameOfPath fp }
          currentScope := [] } body).currentScope = []) :=
  ⟨fun st s => visitStmt_scope s st,
   fun st l => visitStmts_scope l st,
   fun _ body => by unfold visitModule; rw [visitStmts_scope]⟩

/-! ## Graph lemmas: monotonicity and the calls-edge guard -/

theorem edges_phFold (cs : List String) :
    ∀ g : GGraph, (cs.foldl placeholderStep g).edges = g.edges := by
  induction cs with
  | nil => intro g; rfl
  | cons c cs ih =>
    intro g
    rw [List.foldl_cons, ih]
    unfold placeholderStep
    split <;> rfl

theorem edges_addCalleePlaceholders (calls : CallMap) :
    ∀ g : GGraph, (addCalleePlaceholders g calls).edges = g.edges := by
  induction calls with
  | nil => intro g; rfl
  | cons kv rest ih =>
    intro g
    unfold addCalleePlaceholders at ih ⊢
    rw [List.foldl_cons, ih, edges_phFold]

theorem allNodes_phFold (cs : List String) :
    ∀ (g : GGraph) (x : String), x ∈ g.allNodes →
      x ∈ (cs.foldl placeholderStep g).allNodes := by
  induction cs with
  | nil => intro g x hx; exact hx
  | cons c cs ih =>
    intro g x hx
    rw [List.foldl_cons]
    refine ih _ x ?_
    unfold placeholderStep
    split
    · exact hx
    · exact List.mem_append_left _ hx

theorem allNodes_addCalleePlaceholders (calls : CallMap) :
    ∀ (g : GGraph) (x : String), x ∈ g.allNodes →
      x ∈ (addCalleePlaceholders g calls).allNodes := by
  induction calls with
  | nil => intro g x hx; exact hx
  | cons kv rest ih =>
    intro g x hx
    unfold addCalleePlaceholders at ih ⊢
    rw [List.foldl_cons]
    exact ih _ x (allNodes_phFold kv.2 g x hx)

theorem edges_mono_callStep (mn : String) (classes : List ClassInfo)
    (cid : String) (g : GGraph) (c : String) (e : GEdge) (he : e ∈ g.edges) :
    e ∈ (callStep mn classes cid g c).edges := by
  unfold callStep
  dsimp only
  split
  · exact List.mem_append_left _ he
  · exact he

theorem edges_mono_callsFold (mn : String) (classes : List ClassInfo)
    (cid : String) (callees : List String) :
    ∀ (g : GGraph) (e : GEdge), e ∈ g.edges →
      e ∈ (callees.foldl (callStep mn classes cid) g).edges := by
  induction callees with
  | nil => intro g e he; exact he
  | cons c cs ih =>
    intro g e he
    rw [List.foldl_cons]
    exact ih _ e (edges_mono_callStep mn classes cid g c e he)

theorem edges_mono_processEntry (mn : String) (classes : List ClassInfo)
    (g : GGraph) (caller : String) (callees : List String) (e : GEdge)
    (he : e ∈ g.edges) :
    e ∈ (processEntry mn classes g caller callees).edges := by
  unfold processEntry
  refine edges_mono_callsFold mn classes _ callees _ e ?_
  split
  · exact he
  · split
    · exact he
    · exact he

theorem allNodes_mono_callStep (mn : String) (classes : List ClassInfo)
    (cid : String) (g : GGraph) (c x : String) (hx : x ∈ g.allNodes) :
    x ∈ (callStep mn classes cid g c).allNodes := by
  unfold callStep
  dsimp only
  split <;> exact hx

theorem allNodes_mono_callsFold (mn : String) (classes : List ClassInfo)
    (cid : String) (callees : List String) :
    ∀ (g : GGraph) (x : String), x ∈ g.allNodes →
      x ∈ (callees.foldl (callStep mn classes cid) g).allNodes := by
  induction callees with
  | nil => intro g x hx; exact hx
  | cons c cs ih =>
    intro g x hx
    rw [List.foldl_cons]
    exact ih _ x (allNodes_mono_callStep mn classes cid g c x hx)

theorem allNodes_mono_processEntry (mn : String) (classes : List ClassInfo)
    (g : GGraph) (caller : String) (callees : List String) (x : String)
    (hx : x ∈ g.allNodes) :
    x ∈ (processEntry mn classes g caller callees).allNodes := by
  unfold processEntry
  refine allNodes_mono_callsFold mn classes _ callees _ x ?_
  split
  · exact hx
  · split
    · exact hx
    · exact List.mem_append_left _ hx

theorem edges_mono_addCallEdges (mn : String) (classes : List ClassInfo)
    (calls : CallMap) :
    ∀ (g : GGraph) (e : GEdge), e ∈ g.edges →
      e ∈ (addCallEdges mn classes g calls).edges := by
  induction calls with
  | nil => intro g e he; exact he
  | cons kv rest ih =>
    intro g e he
    unfold addCallEdges at ih ⊢
    rw [List.foldl_cons]
    exact ih _ e (edges_mono_processEntry mn classes g kv.1 kv.2 e he)

theorem edges_inheritStep (mn cid : String) (g : GGraph) (base : String) :
    (inheritStep mn cid g base).edges =
      g.edges ++ [⟨moduleIdOf mn ++ "." ++ base, cid, "inherits"⟩] := by
  unfold inheritStep
  dsimp only
  split <;> rfl

theorem edges_mono_inheritStep (mn cid : String) (g : GGraph) (base : String)
    (e : GEdge) (he : e ∈ g.edges) :
    e ∈ (inheritStep mn cid g base).edges := by
  rw [edges_inheritStep]
  exact List.mem_append_left _ he

theorem edges_mono_inheritFold (mn cid : String) (bases : List String) :
    ∀ (g : GGraph) (e : GEdge), e ∈ g.edges →
      e ∈ (bases.foldl (inheritStep mn cid) g).edges := by
  induction bases with
  | nil => intro g e he; exact he
  | cons b bs ih =>
    intro g e he
    rw [List.foldl_cons]
    exact ih _ e (edges_mono_inheritStep mn cid g b e he)

theorem edges_mono_addInheritEdges (mn : String) (classes : List ClassInfo) :
    ∀ (g : GGraph) (e : GEdge), e ∈ g.edges →
      e ∈ (addInheritEdges mn g classes).edges := by
  induction classes with
  | nil => intro g e he; exact he
  | cons c cs ih =>
    intro g e he
    unfold addInheritEdges at ih ⊢
    rw [List.foldl_cons]
    exact ih _ e (edges_mono_inheritFold mn _ c.bases g e he)

theorem declaredEdges_not_calls (S : Structure) :
    ∀ e ∈ declaredEdges S, e.lbl ≠ "calls" := by
  intro e he
  simp only [declaredEdges] at he
  rcases List.mem_append.1 he with he | he
  · rcases List.mem_append.1 he with he | he
    · split at he
      · exact absurd he (List.not_mem_nil e)
      · rcases List.mem_singleton.1 he with rfl; simp
    · rcases List.mem_map.1 he with ⟨f, _, rfl⟩; simp
  · rcases List.mem_flatMap.1 he with ⟨c, _, hm⟩
    rcases List.mem_cons.1 hm with rfl | hm
    · simp
    · rcases List.mem_append.1 hm with hm | hm
      · rcases List.mem_map.1 hm with ⟨a, _, rfl⟩; simp
      · rcases List.mem_map.1 hm with ⟨m, _, rfl⟩; simp

theorem callsOk_declared (S : Structure) : CallsEdgesOk (buildDeclared S) :=
  fun e he hl => absurd hl (declaredEdges_not_calls S e he)

theorem callsOk_addCalleePlaceholders (g : GGraph) (calls : CallMap)
    (h : CallsEdgesOk g) : CallsEdgesOk (addCalleePlaceholders g calls) := by
  intro e he hl
  rw [edges_addCalleePlaceholders] at he
  exact h e he hl

theorem callsOk_callsFold (mn : String) (classes : List ClassInfo)
    (cid : String) (callees : List String) :
    ∀ g : GGraph, CallsEdgesOk g →
      CallsEdgesOk (callees.foldl (callStep mn classes cid) g) := by
  induction callees with
  | nil => intro g h; exact h
  | cons c cs ih =>
    intro g h
    rw [List.foldl_cons]
    refine ih _ ?_
    intro e he hl
    unfold callStep at he
    dsimp only at he
    split at he
    · rename_i hcond
      rcases List.mem_append.1 he with he | he
      · exact h e he hl
      · rcases List.mem_singleton.1 he with rfl
        exact hcond.2.2
    · exact h e he hl

theorem callsOk_processEntry (mn : String) (classes : List ClassInfo)
    (g : GGraph) (caller : String) (callees : List String)
    (h : CallsEdgesOk g) :
    CallsEdgesOk (processEntry mn classes g caller callees) := by
  unfold processEntry
  refine callsOk_callsFold mn classes _ callees _ ?_
  intro e he hl
  refine h e ?_ hl
  revert he
  split
  · exact id
  · split
    · exact id
    · exact id

theorem callsOk_addCallEdges (mn : String) (classes : List ClassInfo)
    (calls : CallMap) :
    ∀ g : GGraph, CallsEdgesOk g →
      CallsEdgesOk (addCallEdges mn classes g calls) := by
  induction calls with
  | nil => intro g h; exact h
  | cons kv rest ih =>
    intro g h
    unfold addCallEdges at ih ⊢
    rw [List.foldl_cons]
    exact ih _ (callsOk_processEntry mn classes g kv.1 kv.2 h)

theorem callsOk_inheritStep (mn cid : String) (g : GGraph) (base : String)
    (h : CallsEdgesOk g) : CallsEdgesOk (inheritStep mn cid g base) := by
  intro e he hl
  rw [edges_inheritStep] at he
  rcases List.mem_append.1 he with he | he
  · exact h e he hl
  · rcases List.mem_singleton.1 he with rfl
    exact absurd hl (by simp)

theorem callsOk_inheritFold (mn cid : String) (bases : List String) :
    ∀ g : GGraph, CallsEdgesOk g →
      CallsEdgesOk (bases.foldl (inheritStep mn cid) g) := by
  induction bases with
  | nil => intro g h; exact h
  | cons b bs ih =>
    intro g h
    rw [List.foldl_cons]
    exact ih _ (callsOk_inheritStep mn cid g b h)

theorem callsOk_addInheritEdges (mn : String) (classes : List ClassInfo) :
    ∀ g : GGraph, CallsEdgesOk g →
      CallsEdgesOk (addInheritEdges mn g classes) := by
  induction classes with
  | nil => intro g h; exact h
  | cons c cs ih =>
    intro g h
    unfold addInheritEdges at ih ⊢
    rw [List.foldl_cons]
    exact ih _ (callsOk_inheritFold mn _ c.bases g h)

theorem callsOk_buildGraph (S : Structure) : CallsEdgesOk (buildGraph S) := by
  unfold buildGraph
  exact callsOk_addInheritEdges _ _ _
    (callsOk_addCallEdges _ _ _ _
      (callsOk_addCalleePlaceholders _ _ (callsOk_declared S)))

/-! ## C3: self-loop suppression -/

/-- C3 counterexample: the claim says no edge of any kind ever has
identical source and target.  For `class A(A): pass` (a class listing
itself as base) the inheritance pass of lines 424-431, which has no
self-loop guard, emits an `inherits` edge from `module_m.A` to itself. -/
theorem C3_self_loop_counterexample :
    (⟨"module_m.A", "module_m.A", "inherits"⟩ : GEdge) ∈
      (buildGraph structSelfBase).edges ∧
    ¬ (∀ e ∈ (buildGraph structSelfBase).edges, e.src ≠ e.tgt) := by
  constructor
  · decide
  · intro h
    exact h ⟨"module_m.A", "module_m.A", "inherits"⟩ (by decide) rfl

/-- C3 amended: only `calls` edges are self-loop-suppressed (the guard
`caller_id != callee_id` of line 420); an `inherits` edge may loop.  No
`calls` edge of any built graph has identical source and target. -/
theorem C3_calls_no_self_loop (S : Structure) (e : GEdge)
    (he : e ∈ (buildGraph S).edges) (hl : e.lbl = "calls") :
    e.src ≠ e.tgt :=
  callsOk_buildGraph S e he hl

/-- C3 witness: the graph of a structure with one module-level call to
`f` contains the calls edge from `module_m` to `f`, whose endpoints the
amended theorem proves distinct. -/
theorem C3_calls_no_self_loop_witness :
    (⟨"module_m", "f", "calls"⟩ : GEdge) ∈ (buildGraph structSimpleCall).edges ∧
    ("module_m" : String) ≠ "f" :=
  ⟨by decide,
   C3_calls_no_self_loop structSimpleCall ⟨"module_m", "f", "calls"⟩
     (by decide) rfl⟩

/-! ## C7: call-edge emission -/

theorem pySplit_ne_nil (sep : Char) (l : List Char) : pySplit sep l ≠ [] := by
  cases l with
  | nil => simp [pySplit]
  | cons c cs =>
    unfold pySplit
    dsimp only
    split
    · simp
    · split
      · simp
      · simp

theorem splitDots_ne_nil (s : String) : splitDots s ≠ [] := by
  unfold splitDots
  intro h
  exact pySplit_ne_nil '.' s.data (List.map_eq_nil_iff.1 h)

theorem ne_empty_iff_data (s : String) : s ≠ "" ↔ s.data ≠ [] := by
  cases s with
  | mk d =>
    constructor
    · intro h hd
      have hd' : d = [] := hd
      subst hd'
      exact h rfl
    · intro h he
      exact h (congrArg String.data he)

theorem appendNeEmptyL (a b : String) (h : a ≠ "") : a ++ b ≠ "" := by
  rw [ne_empty_iff_data] at h ⊢
  rw [dataAppend]
  intro hc
  exact h (List.append_eq_nil.1 hc).1

theorem moduleIdNeEmpty (mn : String) : moduleIdOf mn ≠ "" := by
  unfold moduleIdOf
  exact appendNeEmptyL _ _ (by decide)

theorem moduleIdDotNeEmpty (mn x : String) :
    moduleIdOf mn ++ "." ++ x ≠ "" :=
  appendNeEmptyL _ _ (appendNeEmptyL _ _ (moduleIdNeEmpty mn))

/-- For caller scope ids of dot-depth at most 3, the computed caller id
is nonempty. -/
theorem callerIdOf_ne_empty (mn caller : String)
    (hdep : (splitDots caller).length ≤ 3) :
    callerIdOf mn caller ≠ "" := by
  unfold callerIdOf
  rcases hsp : splitDots caller with _ | ⟨p0, _ | ⟨p1, _ | ⟨p2, _ | ⟨p3, rest⟩⟩⟩⟩
  · exact absurd hsp (splitDots_ne_nil caller)
  · dsimp only
    split
    · exact moduleIdDotNeEmpty mn p0
    · exact moduleIdNeEmpty mn
  · exact appendNeEmptyL _ _ (appendNeEmptyL _ _ (moduleIdDotNeEmpty mn p0))
  · exact appendNeEmptyL _ _ (appendNeEmptyL _ _
      (appendNeEmptyL _ _ (appendNeEmptyL _ _ (moduleIdDotNeEmpty mn p0))))
  · rw [hsp] at hdep
    simp at hdep

/-- The resolved callee id is one of three shapes: module-qualified,
class-qualified for some class of the structure, or the raw descriptor. -/
theorem resolveCallee_cases (mn : String) (classes : List ClassInfo)
    (allNodes : List String) (c : String) :
    resolveCallee mn classes allNodes c = moduleIdOf mn ++ "." ++ c ∨
    (∃ cl ∈ classes,
      resolveCallee mn classes allNodes c =
        moduleIdOf mn ++ "." ++ cl.cname ++ "." ++ c) ∨
    resolveCallee mn classes allNodes c = c := by
  unfold resolveCallee
  split
  · exact Or.inl rfl
  · split
    · rename_i cl hf
      exact Or.inr (Or.inl ⟨cl, List.mem_of_find?_eq_some hf, rfl⟩)
    · exact Or.inr (Or.inr rfl)

/-- Under the distinctness side conditions, one `callStep` at callee `c`
emits the calls edge from `cid`. -/
theorem callStep_emits (mn : String) (classes : List ClassInfo)
    (cid : String) (g : GGraph) (c : String)
    (hne : cid ≠ "") (hcne : c ≠ "")
    (h1 : moduleIdOf mn ++ "." ++ c ≠ cid)
    (h2 : ∀ cl ∈ classes, moduleIdOf mn ++ "." ++ cl.cname ++ "." ++ c ≠ cid)
    (h3 : c ≠ cid) :
    ∃ tid, (⟨cid, tid, "calls"⟩ : GEdge) ∈ (callStep mn classes cid g c).edges := by
  refine ⟨resolveCallee mn classes g.allNodes c, ?_⟩
  have htne : resolveCallee mn classes g.allNodes c ≠ "" := by
    rcases resolveCallee_cases mn classes g.allNodes c with h | ⟨cl, _, h⟩ | h
    · rw [h]; exact moduleIdDotNeEmpty mn c
    · rw [h]
      have : moduleIdOf mn ++ "." ++ cl.cname ++ "." ++ c =
          moduleIdOf mn ++ "." ++ (cl.cname ++ "." ++ c) := by
        simp only [strAssoc]
      rw [this]
      exact moduleIdDotNeEmpty mn _
    · rw [h]; exact hcne
  have hdiff : cid ≠ resolveCallee mn classes g.allNodes c := by
    rcases resolveCallee_cases mn classes g.allNodes c with h | ⟨cl, hcl, h⟩ | h
    · rw [h]; exact fun hh => h1 hh.symm
    · rw [h]; exact fun hh => h2 cl hcl hh.symm
    · rw [h]; exact fun hh => h3 hh.symm
  unfold callStep
  dsimp only
  rw [if_pos ⟨hne, htne, hdiff⟩]
  exact List.mem_append_right _ (List.mem_singleton.2 rfl)

/-- Folding `callStep` over a callee list containing `c` emits a calls
edge from `cid`. -/
theorem callsFold_emits (mn : String) (classes : List ClassInfo)
    (cid c : String) (hne : cid ≠ "") (hcne : c ≠ "")
    (h1 : moduleIdOf mn ++ "." ++ c ≠ cid)
    (h2 : ∀ cl ∈ classes, moduleIdOf mn ++ "." ++ cl.cname ++ "." ++ c ≠ cid)
    (h3 : c ≠ cid) :
    ∀ (callees : List String) (g : GGraph), c ∈ callees →
      ∃ tid, (⟨cid, tid, "calls"⟩ : GEdge) ∈
        (callees.foldl (callStep mn classes cid) g).edges := by
  intro callees
  induction callees with
  | nil => intro g hc; exact absurd hc (List.not_mem_nil c)
  | cons a as ih =>
    intro g hc
    rw [List.foldl_cons]
    rcases List.mem_cons.1 hc with rfl | hc
    · obtain ⟨tid, ht⟩ := callStep_emits mn classes cid g c hne hcne h1 h2 h3
      exact ⟨tid, edges_mono_callsFold mn classes cid as _ _ ht⟩
    · exact ih _ hc

/-- `processEntry` emits a calls edge from the computed caller id for
every callee satisfying the distinctness side conditions, provided the
module node is already known whenever the caller is the module itself. -/
theorem processEntry_emits (mn : String) (classes : List ClassInfo)
    (g : GGraph) (caller : String) (callees : List String) (c : String)
    (hc : c ∈ callees)
    (hmodid : caller = mn → callerIdOf mn caller ∈ g.allNodes)
    (hne : callerIdOf mn caller ≠ "") (hcne : c ≠ "")
    (h1 : moduleIdOf mn ++ "." ++ c ≠ callerIdOf mn caller)
    (h2 : ∀ cl ∈ classes,
      moduleIdOf mn ++ "." ++ cl.cname ++ "." ++ c ≠ callerIdOf mn caller)
    (h3 : c ≠ callerIdOf mn caller) :
    ∃ tid, (⟨callerIdOf mn caller, tid, "calls"⟩ : GEdge) ∈
      (processEntry mn classes g caller callees).edges := by
  unfold processEntry
  dsimp only
  by_cases hm : callerIdOf mn caller ∈ g.allNodes
  · rw [if_pos hm]
    exact callsFold_emits mn classes _ c hne hcne h1 h2 h3 callees g hc
  · rw [if_neg hm]
    have hcm : ¬ (caller = mn ∧ moduleIdOf mn ∈ g.allNodes) := by
      rintro ⟨hcaller, _⟩
      exact hm (hmodid hcaller)
    rw [if_neg hcm]
    exact callsFold_emits mn classes _ c hne hcne h1 h2 h3 callees _ hc

/-- `addCallEdges` emits a calls edge from the computed caller id for
every recorded pair satisfying the side conditions. -/
theorem addCallEdges_emits (mn : String) (classes : List ClassInfo)
    (caller c : String) (cs : List String) (hc : c ∈ cs)
    (hmn1 : caller = mn → callerIdOf mn caller = moduleIdOf mn)
    (hne : callerIdOf mn caller ≠ "") (hcne : c ≠ "")
    (h1 : moduleIdOf mn ++ "." ++ c ≠ callerIdOf mn caller)
    (h2 : ∀ cl ∈ classes,
      moduleIdOf mn ++ "." ++ cl.cname ++ "." ++ c ≠ callerIdOf mn caller)
    (h3 : c ≠ callerIdOf mn caller) :
    ∀ (calls : CallMap) (g : GGraph), (caller, cs) ∈ calls →
      moduleIdOf mn ∈ g.allNodes →
      ∃ tid, (⟨callerIdOf mn caller, tid, "calls"⟩ : GEdge) ∈
        (addCallEdges mn classes g calls).edges := by
  intro calls
  induction calls with
  | nil => intro g hm _; exact absurd hm (List.not_mem_nil _)
  | cons kv rest ih =>
    intro g hm hmod
    unfold addCallEdges
    rw [List.foldl_cons]
    rcases List.mem_cons.1 hm with rfl | hm
    · obtain ⟨tid, ht⟩ := processEntry_emits mn classes g caller cs c hc
        (fun hcaller => (hmn1 hcaller) ▸ hmod) hne hcne h1 h2 h3
      refine ⟨tid, ?_⟩
      have := edges_mono_addCallEdges mn classes rest _ _ ht
      unfold addCallEdges at this
      exact this
    · have hmod' : moduleIdOf mn ∈ (processEntry mn classes g kv.1 kv.2).allNodes :=
        allNodes_mono_processEntry mn classes g kv.1 kv.2 _ hmod
      have := ih (processEntry mn classes g kv.1 kv.2) hm hmod'
      unfold addCallEdges at this
      exact this

theorem pySplit_singleton (sep : Char) :
    ∀ (l x : List Char), pySplit sep l = [x] → x = l := by
  intro l
  induction l with
  | nil =>
    intro x h
    simp [pySplit] at h
    exact h
  | cons c cs ih =>
    intro x h
    unfold pySplit at h
    dsimp only at h
    split at h
    · exact absurd (List.cons.inj h).2 (pySplit_ne_nil sep cs)
    · rename_i hcs
      rcases hrest : pySplit sep cs with _ | ⟨p, ps⟩
      · exact absurd hrest (pySplit_ne_nil sep cs)
      · rw [hrest] at h
        rcases List.cons.inj h with ⟨rfl, hps⟩
        rcases hps
        have := ih p hrest
        rw [this]

theorem strMkData (s : String) : String.mk s.data = s := by
  cases s; rfl

theorem splitDots_singleton (s : String) (x : String)
    (h : splitDots s = [x]) : x = s := by
  unfold splitDots at h
  rcases hp : pySplit '.' s.data with _ | ⟨p, ps⟩
  · exact absurd hp (pySplit_ne_nil '.' s.data)
  · rw [hp] at h
    simp only [List.map_cons] at h
    rcases List.cons.inj h with ⟨rfl, hps⟩
    have hps' : ps = [] := List.map_eq_nil_iff.1 hps
    rw [hps'] at hp
    have := pySplit_singleton '.' s.data p hp
    rw [this, strMkData]

theorem moduleId_mem_declared (S : Structure) :
    moduleIdOf S.module_name ∈ (buildDeclared S).allNodes := by
  show moduleIdOf S.module_name ∈ (declaredNodes S).map GNode.nid
  refine List.mem_map.2 ⟨⟨moduleIdOf S.module_name,
    "Module: " ++ S.module_name, .folder, false, "#ADD8E6"⟩, ?_, rfl⟩
  simp only [declaredNodes]
  exact List.mem_append_left _ (List.mem_append_left _
    (List.mem_append_left _ (List.mem_singleton.2 rfl)))

/-- C7 amended: a recorded call from a caller scope id of dot-depth at
most 3 is never silently dropped: for every callee whose candidate
resolutions all differ from the computed caller id (and are nonempty),
the built graph contains a calls edge out of that caller id — a
placeholder caller node being synthesized when needed.  (For dot-depth
4 or more the code leaves `caller_id` empty and drops the edges, which
is what the counterexample shows; the extra hypothesis on a caller that
is literally the module name only excludes module names that themselves
contain dots, which extraction never produces.) -/
theorem C7_call_edge_emitted (S : Structure) (caller c : String)
    (cs : List String) (hmem : (caller, cs) ∈ S.calls) (hc : c ∈ cs)
    (hdep : (splitDots caller).length ≤ 3)
    (hmn : caller = S.module_name → (splitDots caller).length = 1)
    (hcne : c ≠ "")
    (h1 : moduleIdOf S.module_name ++ "." ++ c ≠ callerIdOf S.module_name caller)
    (h2 : ∀ cl ∈ S.classes,
      moduleIdOf S.module_name ++ "." ++ cl.cname ++ "." ++ c ≠
        callerIdOf S.module_name caller)
    (h3 : c ≠ callerIdOf S.module_name caller) :
    ∃ tid, (⟨callerIdOf S.module_name caller, tid, "calls"⟩ : GEdge) ∈
      (buildGraph S).edges := by
  have hmn1 : caller = S.module_name →
      callerIdOf S.module_name caller = moduleIdOf S.module_name := by
    intro hcal
    obtain ⟨x, hx⟩ := List.length_eq_one.1 (hmn hcal)
    have hxc : x = caller := splitDots_singleton caller x hx
    unfold callerIdOf
    rw [hx, hxc, hcal]
    simp
  have hmodmem : moduleIdOf S.module_name ∈
      (addCalleePlaceholders (buildDeclared S) S.calls).allNodes :=
    allNodes_addCalleePlaceholders S.calls _ _ (moduleId_mem_declared S)
  obtain ⟨tid, ht⟩ := addCallEdges_emits S.module_name S.classes caller c cs hc
    hmn1 (callerIdOf_ne_empty S.module_name caller hdep) hcne h1 h2 h3
    S.calls _ hmem hmodmem
  exact ⟨tid, edges_mono_addInheritEdges S.module_name S.classes _ _ ht⟩

/-- C7 witness: the module-level call of `structSimpleCall` produces a
calls edge out of the module node. -/
theorem C7_call_edge_emitted_witness :
    ("m", ["f"]) ∈ structSimpleCall.calls ∧
    ∃ tid, (⟨callerIdOf structSimpleCall.module_name "m", tid, "calls"⟩ : GEdge) ∈
      (buildGraph structSimpleCall).edges :=
  ⟨by decide,
   C7_call_edge_emitted structSimpleCall "m" "f" ["f"] (by decide) (by decide)
     (by decide) (by decide) (by decide) (by decide) (by decide) (by decide)⟩

/-- C7 counterexample: the claim asserts that no call edge is ever
silently dropped, including for callers with more than three dot-joined
components.  For the recorded pair `("a.b.c.d", {"foo"})` — caller and
callee resolve to different identities — the built graph contains no
calls edge at all: lines 387-394 leave `caller_id` as the empty string
for four components, and the truthiness test of line 420 then drops
every edge of that entry. -/
theorem C7_deep_caller_counterexample :
    ("a.b.c.d", ["foo"]) ∈ structDeepCaller.calls ∧
    (splitDots "a.b.c.d").length = 4 ∧
    (∀ e ∈ (buildGraph structDeepCaller).edges, e.lbl ≠ "calls") :=
  ⟨by decide, by decide, by decide⟩

/-! ## C4: node-identity uniqueness -/

theorem strExt (x y : String) (h : x.data = y.data) : x = y := by
  cases x; cases y
  exact congrArg String.mk h

theorem dataDotJoin (a x : String) :
    (a ++ "." ++ x).data = a.data ++ '.' :: x.data := by
  rw [dataAppend, dataAppend]
  simp

theorem dotJoinInjData :
    ∀ (a b x y : List Char), '.' ∉ a → '.' ∉ b →
      a ++ '.' :: x = b ++ '.' :: y → a = b ∧ x = y := by
  intro a
  induction a with
  | nil =>
    intro b x y _ hb h
    cases b with
    | nil => exact ⟨rfl, (List.cons.inj h).2⟩
    | cons bh bt =>
      rcases List.cons.inj h with ⟨h1, _⟩
      exact absurd (List.mem_cons_self bh bt) (h1 ▸ hb)
  | cons ah at' ih =>
    intro b x y ha hb h
    cases b with
    | nil =>
      rcases List.cons.inj h with ⟨h1, _⟩
      exact absurd (List.mem_cons_self ah at') (h1 ▸ ha)
    | cons bh bt =>
      rcases List.cons.inj h with ⟨rfl, h2⟩
      have hnd : '.' ∉ at' := fun hm => ha (List.mem_cons_of_mem _ hm)
      have hnd' : '.' ∉ bt := fun hm => hb (List.mem_cons_of_mem _ hm)
      obtain ⟨rfl, rfl⟩ := ih bt x y hnd hnd' h2
      exact ⟨rfl, rfl⟩

/-- Dot-join of dot-free left parts is injective (string level). -/
theorem dotJoinInj (a b x y : String) (ha : noDotStr a) (hb : noDotStr b)
    (h : a ++ "." ++ x = b ++ "." ++ y) : a = b ∧ x = y := by
  have hd := congrArg String.data h
  rw [dataDotJoin, dataDotJoin] at hd
  obtain ⟨h1, h2⟩ := dotJoinInjData a.data b.data x.data y.data ha hb hd
  exact ⟨strExt _ _ h1, strExt _ _ h2⟩

/-- A dot-free name never equals a dot-join. -/
theorem noDot_ne_dotJoin (a b x : String) (ha : noDotStr a) :
    a ≠ b ++ "." ++ x := by
  intro h
  have hd := congrArg String.data h
  rw [dataDotJoin] at hd
  exact ha (hd ▸ List.mem_append_right _ (List.mem_cons_self _ _))

theorem ne_self_append (a b : String) (hb : b ≠ "") : a ≠ a ++ b := by
  intro h
  have hd := congrArg String.data h
  rw [dataAppend] at hd
  have hlen := congrArg List.length hd
  rw [List.length_append] at hlen
  have hz : b.data.length = 0 := by omega
  exact (ne_empty_iff_data b).1 hb (List.length_eq_zero.1 hz)

/-- The module-qualified id of a name: `module_<mn>.<x>`. -/
theorem strCancelLeft (p x y : String) (h : p ++ x = p ++ y) : x = y := by
  have hd := congrArg String.data h
  rw [dataAppend, dataAppend] at hd
  exact strExt _ _ (List.append_cancel_left hd)

/-- `mid.x` forms with distinct dot-free heads are distinct. -/
theorem midDot_inj (mid x y : String) (h : mid ++ "." ++ x = mid ++ "." ++ y) :
    x = y := by
  rw [strAssoc, strAssoc] at h
  have := strCancelLeft mid _ _ h
  exact strCancelLeft "." x y this

/-- The declared node ids, written out as plain string lists. -/
theorem declaredIds_eq (S : Structure) :
    (declaredNodes S).map GNode.nid =
      [moduleIdOf S.module_name] ++
      (if S.global_variables.isEmpty then []
       else [moduleIdOf S.module_name ++ "_globals"]) ++
      S.functions.map (fun f => moduleIdOf S.module_name ++ "." ++ f.fname) ++
      S.classes.flatMap (fun c =>
        (moduleIdOf S.module_name ++ "." ++ c.cname) ::
        (c.attributes.map (fun a =>
          moduleIdOf S.module_name ++ "." ++ c.cname ++ "." ++ a.vname) ++
         c.methods.map (fun m =>
          moduleIdOf S.module_name ++ "." ++ c.cname ++ "." ++ m.fname))) := by
  simp only [declaredNodes, List.map_append, List.map_map]
  by_cases hgv : S.global_variables.isEmpty <;>
    simp [hgv, List.map_flatMap, Function.comp_def]

/-- Membership shapes in the class-id chunk. -/
theorem mem_classChunk (S : Structure) (x : String)
    (hx : x ∈ S.classes.flatMap (fun c =>
        (moduleIdOf S.module_name ++ "." ++ c.cname) ::
        (c.attributes.map (fun a =>
          moduleIdOf S.module_name ++ "." ++ c.cname ++ "." ++ a.vname) ++
         c.methods.map (fun m =>
          moduleIdOf S.module_name ++ "." ++ c.cname ++ "." ++ m.fname)))) :
    ∃ c ∈ S.classes, x = moduleIdOf S.module_name ++ "." ++ c.cname ∨
      ∃ y, (y ∈ c.attributes.map VarInfo.vname ++ c.methods.map FuncInfo.fname) ∧
        x = moduleIdOf S.module_name ++ "." ++ c.cname ++ "." ++ y := by
  rcases List.mem_flatMap.1 hx with ⟨c, hc, hm⟩
  refine ⟨c, hc, ?_⟩
  rcases List.mem_cons.1 hm with rfl | hm
  · exact Or.inl rfl
  · rcases List.mem_append.1 hm with hm | hm
    · rcases List.mem_map.1 hm with ⟨a, ha, rfl⟩
      exact Or.inr ⟨a.vname,
        List.mem_append_left _ (List.mem_map.2 ⟨a, ha, rfl⟩), rfl⟩
    · rcases List.mem_map.1 hm with ⟨m, hmm, rfl⟩
      exact Or.inr ⟨m.fname,
        List.mem_append_right _ (List.mem_map.2 ⟨m, hmm, rfl⟩), rfl⟩

/-- A module-qualified id never equals the bare module id. -/
theorem mid_ne_midDot (mid x : String) : mid ≠ mid ++ "." ++ x := by
  rw [strAssoc]
  exact ne_self_append mid ("." ++ x) (appendNeEmptyL "." x (by decide))

/-- The globals-group id never equals a module-qualified id. -/
theorem gvid_ne_midDot (mid x : String) : mid ++ "_globals" ≠ mid ++ "." ++ x := by
  intro h
  rw [strAssoc] at h
  have h2 := strCancelLeft mid _ _ h
  have hd := congrArg String.data h2
  rw [dataAppend] at hd
  exact absurd (List.cons.inj hd).1 (by decide)

/-- Reassociation of a member id into `mid.( cname.y )` shape. -/
theorem memberId_assoc (mid cn y : String) :
    mid ++ "." ++ cn ++ "." ++ y = mid ++ "." ++ (cn ++ "." ++ y) := by
  simp only [strAssoc]

/-- C4 amended, part 2: node identities of all declared entities are
pairwise distinct, provided top-level names are jointly duplicate-free,
member names are duplicate-free within each class, and all names are
dot-free. -/
theorem declaredIds_nodup (S : Structure)
    (H1 : (S.functions.map FuncInfo.fname ++ S.classes.map ClassInfo.cname).Nodup)
    (H2 : ∀ cl ∈ S.classes,
      (cl.attributes.map VarInfo.vname ++ cl.methods.map FuncInfo.fname).Nodup)
    (H3f : ∀ f ∈ S.functions, noDotStr f.fname)
    (H3c : ∀ cl ∈ S.classes, noDotStr cl.cname) :
    ((declaredNodes S).map GNode.nid).Nodup := by
  rw [declaredIds_eq]
  set mid := moduleIdOf S.module_name with hmid
  have hndF : (S.functions.map FuncInfo.fname).Nodup :=
    (List.nodup_append.1 H1).1
  have hndC : (S.classes.map ClassInfo.cname).Nodup :=
    (List.nodup_append.1 H1).2.1
  have hdisjFC : (S.functions.map FuncInfo.fname).Disjoint
      (S.classes.map ClassInfo.cname) := (List.nodup_append.1 H1).2.2
  rw [List.nodup_append, List.nodup_append, List.nodup_append]
  refine ⟨⟨⟨?_, ?_, ?_⟩, ?_, ?_⟩, ?_, ?_⟩
  · exact List.nodup_singleton mid
  · split
    · exact List.nodup_nil
    · exact List.nodup_singleton _
  · intro x hx hx2
    rcases List.mem_singleton.1 hx with rfl
    split at hx2
    · exact absurd hx2 (List.not_mem_nil _)
    · have h := List.mem_singleton.1 hx2
      exact ne_self_append mid "_globals" (by decide) h
  · have : S.functions.map (fun f => mid ++ "." ++ f.fname) =
        (S.functions.map FuncInfo.fname).map (fun n => mid ++ "." ++ n) := by
      rw [List.map_map]
      rfl
    rw [this]
    exact hndF.map (fun n₁ n₂ h => midDot_inj mid n₁ n₂ h)
  · -- Disjoint ([mid] ++ G) F
    intro x hx hx2
    rcases List.mem_map.1 hx2 with ⟨f, _, rfl⟩
    rcases List.mem_append.1 hx with hx | hx
    · have h := List.mem_singleton.1 hx
      exact mid_ne_midDot mid f.fname h.symm
    · split at hx
      · exact absurd hx (List.not_mem_nil _)
      · have h := List.mem_singleton.1 hx
        exact gvid_ne_midDot mid f.fname h.symm
  · -- Nodup class chunk
    rw [List.nodup_flatMap]
    constructor
    · intro c hc
      rw [List.nodup_cons]
      constructor
      · intro hmem
        have : ∀ y, mid ++ "." ++ c.cname ≠ mid ++ "." ++ c.cname ++ "." ++ y := by
          intro y h
          rw [memberId_assoc] at h
          have := midDot_inj mid _ _ h
          exact noDot_ne_dotJoin c.cname c.cname y (H3c c hc) this
        rcases List.mem_append.1 hmem with hm | hm
        · rcases List.mem_map.1 hm with ⟨a, _, heq⟩
          exact this a.vname heq.symm
        · rcases List.mem_map.1 hm with ⟨m, _, heq⟩
          exact this m.fname heq.symm
      · have e1 : c.attributes.map (fun a => mid ++ "." ++ c.cname ++ "." ++ a.vname) =
            (c.attributes.map VarInfo.vname).map
              (fun y => mid ++ "." ++ c.cname ++ "." ++ y) := by
          rw [List.map_map]; rfl
        have e2 : c.methods.map (fun m => mid ++ "." ++ c.cname ++ "." ++ m.fname) =
            (c.methods.map FuncInfo.fname).map
              (fun y => mid ++ "." ++ c.cname ++ "." ++ y) := by
          rw [List.map_map]; rfl
        rw [e1, e2, ← List.map_append]
        refine (H2 c hc).map ?_
        intro y₁ y₂ h
        dsimp only at h
        rw [memberId_assoc, memberId_assoc] at h
        have := midDot_inj mid _ _ h
        exact (dotJoinInj c.cname c.cname y₁ y₂ (H3c c hc) (H3c c hc) this).2
    · have hpw : S.classes.Pairwise (fun c₁ c₂ => c₁.cname ≠ c₂.cname) :=
        List.pairwise_map.1 hndC
      refine List.Pairwise.imp_of_mem ?_ hpw
      intro c₁ c₂ hm1 hm2 hne x hx1 hx2
      have shape : ∀ (c : ClassInfo), x ∈
          (mid ++ "." ++ c.cname) ::
          (c.attributes.map (fun a => mid ++ "." ++ c.cname ++ "." ++ a.vname) ++
           c.methods.map (fun m => mid ++ "." ++ c.cname ++ "." ++ m.fname)) →
          x = mid ++ "." ++ c.cname ∨
          ∃ y, x = mid ++ "." ++ c.cname ++ "." ++ y := by
        intro c hm
        rcases List.mem_cons.1 hm with rfl | hm
        · exact Or.inl rfl
        · rcases List.mem_append.1 hm with hm | hm
          · rcases List.mem_map.1 hm with ⟨a, _, rfl⟩
            exact Or.inr ⟨a.vname, rfl⟩
          · rcases List.mem_map.1 hm with ⟨m, _, rfl⟩
            exact Or.inr ⟨m.fname, rfl⟩
      rcases shape c₁ hx1 with h1 | ⟨y₁, h1⟩ <;>
        rcases shape c₂ hx2 with h2 | ⟨y₂, h2⟩
      · exact hne (midDot_inj mid _ _ (h1.symm.trans h2))
      · have h := h1.symm.trans h2
        rw [memberId_assoc] at h
        exact noDot_ne_dotJoin c₁.cname c₂.cname y₂ (H3c c₁ hm1)
          (midDot_inj mid _ _ h)
      · have h := h2.symm.trans h1
        rw [memberId_assoc] at h
        exact noDot_ne_dotJoin c₂.cname c₁.cname y₁ (H3c c₂ hm2)
          (midDot_inj mid _ _ h)
      · have h := h1.symm.trans h2
        rw [memberId_assoc, memberId_assoc] at h
        exact hne (dotJoinInj c₁.cname c₂.cname y₁ y₂ (H3c c₁ hm1)
          (H3c c₂ hm2) (midDot_inj mid _ _ h)).1
  · -- Disjoint (([mid] ++ G) ++ F) classChunk
    intro x hx hx2
    rcases mem_classChunk S x hx2 with ⟨c, hc, hshape⟩
    have hxform : x = mid ++ "." ++ c.cname ∨
        ∃ y, x = mid ++ "." ++ c.cname ++ "." ++ y := by
      rcases hshape with h | ⟨y, _, h⟩
      · exact Or.inl h
      · exact Or.inr ⟨y, h⟩
    rcases List.mem_append.1 hx with hx | hx
    · rcases List.mem_append.1 hx with hx | hx
      · rcases List.mem_singleton.1 hx with rfl
        rcases hxform with h | ⟨y, h⟩
        · exact mid_ne_midDot mid c.cname h
        · rw [memberId_assoc] at h
          exact mid_ne_midDot mid _ h
      · split at hx
        · exact absurd hx (List.not_mem_nil _)
        · rcases List.mem_singleton.1 hx with rfl
          rcases hxform with h | ⟨y, h⟩
          · exact gvid_ne_midDot mid c.cname h
          · rw [memberId_assoc] at h
            exact gvid_ne_midDot mid _ h
    · rcases List.mem_map.1 hx with ⟨f, hf, rfl⟩
      rcases hxform with h | ⟨y, h⟩
      · refine hdisjFC (List.mem_map.2 ⟨f, hf, rfl⟩) ?_
        rw [midDot_inj mid _ _ h]
        exact List.mem_map.2 ⟨c, hc, rfl⟩
      · rw [memberId_assoc] at h
        exact noDot_ne_dotJoin f.fname c.cname y (H3f f hf)
          (midDot_inj mid _ _ h)

/-! ### Placeholder phases only add box nodes -/

theorem filter_nonBox_emitBox (g : GGraph) (n : GNode) (hn : n.shape = .box) :
    (emitNode g n).nodes.filter nonBox = g.nodes.filter nonBox := by
  show (g.nodes ++ [n]).filter nonBox = _
  rw [List.filter_append]
  simp [nonBox, hn]

theorem filter_nonBox_placeholderStep (g : GGraph) (c : String) :
    (placeholderStep g c).nodes.filter nonBox = g.nodes.filter nonBox := by
  unfold placeholderStep
  split
  · rfl
  · exact filter_nonBox_emitBox g _ rfl

theorem filter_nonBox_phFold (cs : List String) :
    ∀ g : GGraph, (cs.foldl placeholderStep g).nodes.filter nonBox =
      g.nodes.filter nonBox := by
  induction cs with
  | nil => intro g; rfl
  | cons c cs ih =>
    intro g
    rw [List.foldl_cons, ih, filter_nonBox_placeholderStep]

theorem filter_nonBox_addCalleePlaceholders (calls : CallMap) :
    ∀ g : GGraph, (addCalleePlaceholders g calls).nodes.filter nonBox =
      g.nodes.filter nonBox := by
  induction calls with
  | nil => intro g; rfl
  | cons kv rest ih =>
    intro g
    unfold addCalleePlaceholders at ih ⊢
    rw [List.foldl_cons, ih, filter_nonBox_phFold]

theorem nodes_callStep (mn : String) (classes : List ClassInfo) (cid : String)
    (g : GGraph) (c : String) : (callStep mn classes cid g c).nodes = g.nodes := by
  unfold callStep
  dsimp only
  split <;> rfl

theorem nodes_callsFold (mn : String) (classes : List ClassInfo) (cid : String)
    (callees : List String) :
    ∀ g : GGraph, (callees.foldl (callStep mn classes cid) g).nodes = g.nodes := by
  induction callees with
  | nil => intro g; rfl
  | cons c cs ih =>
    intro g
    rw [List.foldl_cons, ih, nodes_callStep]

theorem filter_nonBox_processEntry (mn : String) (classes : List ClassInfo)
    (g : GGraph) (caller : String) (callees : List String) :
    (processEntry mn classes g caller callees).nodes.filter nonBox =
      g.nodes.filter nonBox := by
  unfold processEntry
  dsimp only
  rw [nodes_callsFold]
  split
  · rfl
  · split
    · rfl
    · exact filter_nonBox_emitBox g _ rfl

theorem filter_nonBox_addCallEdges (mn : String) (classes : List ClassInfo)
    (calls : CallMap) :
    ∀ g : GGraph, (addCallEdges mn classes g calls).nodes.filter nonBox =
      g.nodes.filter nonBox := by
  induction calls with
  | nil => intro g; rfl
  | cons kv rest ih =>
    intro g
    unfold addCallEdges at ih ⊢
    rw [List.foldl_cons, ih, filter_nonBox_processEntry]

theorem filter_nonBox_inheritStep (mn cid : String) (g : GGraph) (base : String) :
    (inheritStep mn cid g base).nodes.filter nonBox = g.nodes.filter nonBox := by
  unfold inheritStep
  dsimp only
  split
  · rfl
  · exact filter_nonBox_emitBox g _ rfl

theorem filter_nonBox_inheritFold (mn cid : String) (bases : List String) :
    ∀ g : GGraph, (bases.foldl (inheritStep mn cid) g).nodes.filter nonBox =
      g.nodes.filter nonBox := by
  induction bases with
  | nil => intro g; rfl
  | cons b bs ih =>
    intro g
    rw [List.foldl_cons, ih, filter_nonBox_inheritStep]

theorem filter_nonBox_addInheritEdges (mn : String) (classes : List ClassInfo) :
    ∀ g : GGraph, (addInheritEdges mn g classes).nodes.filter nonBox =
      g.nodes.filter nonBox := by
  induction classes with
  | nil => intro g; rfl
  | cons c cs ih =>
    intro g
    unfold addInheritEdges at ih ⊢
    rw [List.foldl_cons, ih, filter_nonBox_inheritFold]

theorem declaredNodes_nonBox (S : Structure) :
    (declaredNodes S).filter nonBox = declaredNodes S := by
  refine List.filter_eq_self.2 ?_
  intro n hn
  simp only [declaredNodes] at hn
  rcases List.mem_append.1 hn with hn | hn
  · rcases List.mem_append.1 hn with hn | hn
    · rcases List.mem_append.1 hn with hn | hn
      · rcases List.mem_singleton.1 hn with rfl
        rfl
      · split at hn
        · exact absurd hn (List.not_mem_nil _)
        · rcases List.mem_singleton.1 hn with rfl
          rfl
    · rcases List.mem_map.1 hn with ⟨f, _, rfl⟩
      rfl
  · rcases List.mem_flatMap.1 hn with ⟨c, _, hm⟩
    rcases List.mem_cons.1 hm with rfl | hm
    · rfl
    · rcases List.mem_append.1 hm with hm | hm
      · rcases List.mem_map.1 hm with ⟨a, _, rfl⟩
        rfl
      · rcases List.mem_map.1 hm with ⟨m, _, rfl⟩
        rfl

theorem buildGraph_nonBox (S : Structure) :
    (buildGraph S).nodes.filter nonBox = declaredNodes S := by
  unfold buildGraph
  rw [filter_nonBox_addInheritEdges, filter_nonBox_addCallEdges,
    filter_nonBox_addCalleePlaceholders]
  exact declaredNodes_nonBox S

/-- C4 counterexample: the claim says distinct declarations receive
distinct node identities even when two classes share a name.  A
structure declaring two classes both named `A` makes the builder emit
two node statements with the same identity `module_m.A` — the two
declarations collide (graphviz then merges them into one node). -/
theorem C4_duplicate_id_counterexample :
    structDupClasses.classes.length = 2 ∧
    ((buildGraph structDupClasses).nodes.map GNode.nid).count "module_m.A" = 2 :=
  ⟨by decide, by decide⟩

/-- C4 amended: the non-placeholder nodes of the built graph are exactly
the declared-entity nodes, and their identities are pairwise distinct
provided (as the data-model section itself assumes is not enforced) the
top-level class and function names are jointly duplicate-free, the
member names within each class are duplicate-free, and all these names
are dot-free (which is automatic for parsed identifiers). -/
theorem C4_declared_ids_unique (S : Structure)
    (H1 : (S.functions.map FuncInfo.fname ++ S.classes.map ClassInfo.cname).Nodup)
    (H2 : ∀ cl ∈ S.classes,
      (cl.attributes.map VarInfo.vname ++ cl.methods.map FuncInfo.fname).Nodup)
    (H3f : ∀ f ∈ S.functions, noDotStr f.fname)
    (H3c : ∀ cl ∈ S.classes, noDotStr cl.cname) :
    (buildGraph S).nodes.filter nonBox = declaredNodes S ∧
    (((buildGraph S).nodes.filter nonBox).map GNode.nid).Nodup := by
  have h := buildGraph_nonBox S
  rw [h]
  exact ⟨rfl, declaredIds_nodup S H1 H2 H3f H3c⟩

/-- C4 witness: a structure with a global variable, function `f`, class
`A`, attribute `x` and method `m` satisfies the hypotheses, so its
declared node identities are pairwise distinct. -/
theorem C4_declared_ids_unique_witness :
    ((structC4Witness.functions.map FuncInfo.fname ++
      structC4Witness.classes.map ClassInfo.cname).Nodup) ∧
    ((buildGraph structC4Witness).nodes.filter nonBox = declaredNodes structC4Witness ∧
     (((buildGraph structC4Witness).nodes.filter nonBox).map GNode.nid).Nodup) :=
  ⟨by decide,
   C4_declared_ids_unique structC4Witness (by decide) (by decide)
     (by decide) (by decide)⟩

/-! ## C5: list algebra for the method-classification proof -/

theorem methodsFor_nil (n : String) : methodsFor n [] = [] := rfl

theorem methodsFor_append (n : String)
    (l₁ l₂ : List (Option String × FuncInfo)) :
    methodsFor n (l₁ ++ l₂) = methodsFor n l₁ ++ methodsFor n l₂ := by
  unfold methodsFor
  rw [List.filter_append, List.map_append]

theorem methodsFor_eq_nil (n : String) (l : List (Option String × FuncInfo))
    (h : ∀ q ∈ l, q.1 ≠ some n) : methodsFor n l = [] := by
  unfold methodsFor
  have : l.filter (fun q => q.1 = some n) = [] := by
    rw [List.filter_eq_nil_iff]
    intro q hq
    simpa using h q hq
  rw [this]
  rfl

theorem globalsFor_nil (R : List String) : globalsFor R [] = [] := rfl

theorem globalsFor_append (R : List String)
    (l₁ l₂ : List (Option String × FuncInfo)) :
    globalsFor R (l₁ ++ l₂) = globalsFor R l₁ ++ globalsFor R l₂ := by
  unfold globalsFor
  rw [List.filter_append, List.map_append]

theorem globalsFor_congr (R₁ R₂ : List String)
    (l : List (Option String × FuncInfo))
    (h : ∀ q ∈ l, ∀ n, q.1 = some n → (n ∈ R₁ ↔ n ∈ R₂)) :
    globalsFor R₁ l = globalsFor R₂ l := by
  unfold globalsFor
  congr 1
  refine List.filter_congr ?_
  intro q hq
  cases hq1 : q.1 with
  | none => rfl
  | some n =>
    have := h q hq n hq1
    simp [this]

theorem namesOf_proj (cs : List ClassInfo) :
    cs.map ClassInfo.cname = (cs.map projCM).map Prod.fst := by
  rw [List.map_map]
  rfl

/-- Names evolution extracted from a projection equation. -/
theorem names_of_projEq (cs0 cs1 : List ClassInfo)
    (E : List (Option String × FuncInfo)) (cn : List String)
    (h : cs1.map projCM =
      cs0.map (fun c => (c.cname, c.methods ++ methodsFor c.cname E)) ++
      cn.map (fun m => (m, methodsFor m E))) :
    cs1.map ClassInfo.cname = cs0.map ClassInfo.cname ++ cn := by
  rw [namesOf_proj, h, List.map_append, List.map_map, List.map_map]
  simp [Function.comp_def]

theorem projCM_attachAttrFirst (cs : List ClassInfo) (n : String) (v : VarInfo) :
    (attachAttrFirst cs n v).map projCM = cs.map projCM := by
  induction cs with
  | nil => rfl
  | cons c rest ih =>
    unfold attachAttrFirst
    split
    · rfl
    · simp only [List.map_cons]
      rw [ih]

theorem projCM_appendMethodFirst (cs : List ClassInfo) (t : String) (fi : FuncInfo)
    (hnd : (cs.map ClassInfo.cname).Nodup) :
    (appendMethodFirst cs t fi).map projCM =
      cs.map (fun c =>
        (c.cname, c.methods ++ if c.cname = t then [fi] else [])) := by
  induction cs with
  | nil => rfl
  | cons c rest ih =>
    rw [List.map_cons] at hnd
    have hnd' := (List.nodup_cons.1 hnd)
    unfold appendMethodFirst
    split
    · rename_i hct
      simp only [List.map_cons]
      congr 1
      · simp [projCM, hct]
      · refine (List.map_congr_left ?_).symm
        intro c' hc'
        have hne : c'.cname ≠ t := by
          intro he
          apply hnd'.1
          rw [hct, ← he]
          exact List.mem_map.2 ⟨c', hc', rfl⟩
        simp [projCM, hne]
    · rename_i hct
      simp only [List.map_cons]
      rw [ih hnd'.2]
      congr 1
      simp [projCM, hct]

-- Every enclosing-scope name recorded by the spec-side collector is
-- either the ambient scope name or the name of a class or function
-- inside the statement.
mutual
theorem specEncFuncs_fst : ∀ (p : Option String) (s : Stmt)
    (q : Option String × FuncInfo), q ∈ specEncFuncs p s →
      q.1 = p ∨ ∃ n, q.1 = some n ∧ (n ∈ cnames s ∨ n ∈ fnames s)
  | p, .classDef n bases decos body, q => by
    intro hq
    rcases specEncFuncsL_fst (some n) body q hq with h | ⟨n', h1, h2⟩
    · exact Or.inr ⟨n, h, Or.inl (by simp [cnames])⟩
    · exact Or.inr ⟨n', h1, by
        rcases h2 with h2 | h2
        · exact Or.inl (by simp [cnames, h2])
        · exact Or.inr (by simp [fnames, h2])⟩
  | p, .functionDef n fargs rets decos body, q => by
    intro hq
    rcases List.mem_cons.1 hq with rfl | hq
    · exact Or.inl rfl
    · rcases specEncFuncsL_fst (some n) body q hq with h | ⟨n', h1, h2⟩
      · exact Or.inr ⟨n, h, Or.inr (by simp [fnames])⟩
      · exact Or.inr ⟨n', h1, by
          rcases h2 with h2 | h2
          · exact Or.inl (by simp [cnames, h2])
          · exact Or.inr (by simp [fnames, h2])⟩
  | p, .ifStmt t b o, q => by
    intro hq
    rcases List.mem_append.1 hq with hq | hq <;>
      [rcases specEncFuncsL_fst p b q hq with h | ⟨n', h1, h2⟩;
       rcases specEncFuncsL_fst p o q hq with h | ⟨n', h1, h2⟩] <;>
      first
        | exact Or.inl h
        | exact Or.inr ⟨n', h1, by
            rcases h2 with h2 | h2
            · exact Or.inl (by simp [cnames, h2])
            · exact Or.inr (by simp [fnames, h2])⟩
  | p, .forStmt tg it b o, q => by
    intro hq
    rcases List.mem_append.1 hq with hq | hq <;>
      [rcases specEncFuncsL_fst p b q hq with h | ⟨n', h1, h2⟩;
       rcases specEncFuncsL_fst p o q hq with h | ⟨n', h1, h2⟩] <;>
      first
        | exact Or.inl h
        | exact Or.inr ⟨n', h1, by
            rcases h2 with h2 | h2
            · exact Or.inl (by simp [cnames, h2])
            · exact Or.inr (by simp [fnames, h2])⟩
  | p, .whileStmt t b o, q => by
    intro hq
    rcases List.mem_append.1 hq with hq | hq <;>
      [rcases specEncFuncsL_fst p b q hq with h | ⟨n', h1, h2⟩;
       rcases specEncFuncsL_fst p o q hq with h | ⟨n', h1, h2⟩] <;>
      first
        | exact Or.inl h
        | exact Or.inr ⟨n', h1, by
            rcases h2 with h2 | h2
            · exact Or.inl (by simp [cnames, h2])
            · exact Or.inr (by simp [fnames, h2])⟩
  | p, .assign t v, q => by intro hq; exact absurd hq (List.not_mem_nil q)
  | p, .annAssign t a v, q => by intro hq; exact absurd hq (List.not_mem_nil q)
  | p, .importDirect ns, q => by intro hq; exact absurd hq (List.not_mem_nil q)
  | p, .importFromM m ns, q => by intro hq; exact absurd hq (List.not_mem_nil q)
  | p, .exprStmt e, q => by intro hq; exact absurd hq (List.not_mem_nil q)
  | p, .ret v, q => by intro hq; exact absurd hq (List.not_mem_nil q)
  | p, .pass, q => by intro hq; exact absurd hq (List.not_mem_nil q)
theorem specEncFuncsL_fst : ∀ (p : Option String) (l : StmtList)
    (q : Option String × FuncInfo), q ∈ specEncFuncsL p l →
      q.1 = p ∨ ∃ n, q.1 = some n ∧ (n ∈ cnamesL l ∨ n ∈ fnamesL l)
  | p, .nil, q => by intro hq; exact absurd hq (List.not_mem_nil q)
  | p, .cons s rest, q => by
    intro hq
    rcases List.mem_append.1 hq with hq | hq
    · rcases specEncFuncs_fst p s q hq with h | ⟨n', h1, h2⟩
      · exact Or.inl h
      · exact Or.inr ⟨n', h1, by
          rcases h2 with h2 | h2
          · exact Or.inl (by simp [cnamesL, h2])
          · exact Or.inr (by simp [fnamesL, h2])⟩
    · rcases specEncFuncsL_fst p rest q hq with h | ⟨n', h1, h2⟩
      · exact Or.inl h
      · exact Or.inr ⟨n', h1, by
          rcases h2 with h2 | h2
          · exact Or.inl (by simp [cnamesL, h2])
          · exact Or.inr (by simp [fnamesL, h2])⟩
end

theorem projMap_nilE (cs : List ClassInfo) :
    cs.map (fun c => (c.cname, c.methods ++ methodsFor c.cname [])) =
      cs.map projCM := by
  refine List.map_congr_left ?_
  intro c _
  simp [methodsFor, projCM]

theorem methodsFor_cons_skip (n : String) (q : Option String × FuncInfo)
    (l : List (Option String × FuncInfo)) (h : q.1 ≠ some n) :
    methodsFor n (q :: l) = methodsFor n l := by
  unfold methodsFor
  rw [List.filter_cons_of_neg (by simpa using h)]

theorem methodsFor_cons_hit (n : String) (fi : FuncInfo)
    (l : List (Option String × FuncInfo)) :
    methodsFor n ((some n, fi) :: l) = fi :: methodsFor n l := by
  unfold methodsFor
  rw [List.filter_cons_of_pos (by simp)]
  rfl

theorem globalsFor_cons_none (R : List String) (fi : FuncInfo)
    (l : List (Option String × FuncInfo)) :
    globalsFor R ((none, fi) :: l) = fi :: globalsFor R l := by
  unfold globalsFor
  rw [List.filter_cons_of_pos (by simp)]
  rfl

theorem globalsFor_cons_mem (R : List String) (t : String) (fi : FuncInfo)
    (l : List (Option String × FuncInfo)) (h : t ∈ R) :
    globalsFor R ((some t, fi) :: l) = globalsFor R l := by
  unfold globalsFor
  rw [List.filter_cons_of_neg (by simp [h])]

theorem globalsFor_cons_notmem (R : List String) (t : String) (fi : FuncInfo)
    (l : List (Option String × FuncInfo)) (h : t ∉ R) :
    globalsFor R ((some t, fi) :: l) = fi :: globalsFor R l := by
  unfold globalsFor
  rw [List.filter_cons_of_pos (by simp [h])]
  rfl

theorem names_appendMethodFirst (cs : List ClassInfo) (t : String)
    (fi : FuncInfo) :
    (appendMethodFirst cs t fi).map ClassInfo.cname = cs.map ClassInfo.cname := by
  induction cs with
  | nil => rfl
  | cons c rest ih =>
    unfold appendMethodFirst
    split
    · rfl
    · simp only [List.map_cons]
      rw [ih]

/-- Rewriting a methods-extension map through the projection. -/
theorem projLiftE (cs : List ClassInfo) (E : List (Option String × FuncInfo)) :
    cs.map (fun c => (c.cname, c.methods ++ methodsFor c.cname E)) =
      (cs.map projCM).map (fun pr => (pr.1, pr.2 ++ methodsFor pr.1 E)) := by
  rw [List.map_map]
  rfl

/-- Sequential composition of the walker's effect on the class/function
projections: running a second phase after a first combines the spec-side
collections by concatenation, provided every scope name of the first
phase avoids the classes declared only in the second. -/
theorem composeAB (cs0 cs1 cs2 : List ClassInfo)
    (fs0 fs1 fs2 : List FuncInfo)
    (E1 E2 : List (Option String × FuncInfo)) (cn1 cn2 : List String)
    (hA1 : cs1.map projCM =
      cs0.map (fun c => (c.cname, c.methods ++ methodsFor c.cname E1)) ++
      cn1.map (fun m => (m, methodsFor m E1)))
    (hB1 : fs1 = fs0 ++ globalsFor (cs0.map ClassInfo.cname ++ cn1) E1)
    (hA2 : cs2.map projCM =
      cs1.map (fun c => (c.cname, c.methods ++ methodsFor c.cname E2)) ++
      cn2.map (fun m => (m, methodsFor m E2)))
    (hB2 : fs2 = fs1 ++ globalsFor (cs1.map ClassInfo.cname ++ cn2) E2)
    (hstar : ∀ q ∈ E1, ∀ n, q.1 = some n →
      n ∉ cn2 ∨ n ∈ cs0.map ClassInfo.cname ++ cn1)
    (hnd : (cs0.map ClassInfo.cname ++ cn1 ++ cn2).Nodup) :
    cs2.map projCM =
      cs0.map (fun c =>
        (c.cname, c.methods ++ methodsFor c.cname (E1 ++ E2))) ++
      (cn1 ++ cn2).map (fun m => (m, methodsFor m (E1 ++ E2))) ∧
    fs2 = fs0 ++
      globalsFor (cs0.map ClassInfo.cname ++ (cn1 ++ cn2)) (E1 ++ E2) := by
  have hn1 : cs1.map ClassInfo.cname = cs0.map ClassInfo.cname ++ cn1 :=
    names_of_projEq cs0 cs1 E1 cn1 hA1
  have hdisj : (cs0.map ClassInfo.cname ++ cn1).Disjoint cn2 :=
    (List.nodup_append.1 hnd).2.2
  have hskip : ∀ m ∈ cn2, methodsFor m E1 = [] := by
    intro m hm
    refine methodsFor_eq_nil m E1 ?_
    intro q hq heq
    rcases hstar q hq m heq with h | h
    · exact h hm
    · exact hdisj h hm
  constructor
  · rw [hA2, projLiftE cs1 E2, hA1, List.map_append, List.map_map,
      List.map_map, List.append_assoc]
    congr 1
    · refine List.map_congr_left ?_
      intro c _
      simp only [Function.comp_apply]
      rw [methodsFor_append, List.append_assoc]
    · rw [List.map_append]
      congr 1
      · refine List.map_congr_left ?_
        intro m _
        simp only [Function.comp_apply]
        rw [methodsFor_append]
      · refine List.map_congr_left ?_
        intro m hm
        rw [methodsFor_append, hskip m hm]
        simp
  · rw [hB2, hB1, hn1, List.append_assoc]
    congr 1
    rw [globalsFor_append]
    congr 1
    · refine globalsFor_congr _ _ E1 ?_
      intro q hq n heq
      constructor
      · intro h
        rcases List.mem_append.1 h with h | h
        · exact List.mem_append_left _ h
        · exact List.mem_append_right _ (List.mem_append_left _ h)
      · intro h
        rcases List.mem_append.1 h with h | h
        · exact List.mem_append_left _ h
        · rcases List.mem_append.1 h with h | h
          · exact List.mem_append_right _ h
          · rcases hstar q hq n heq with h2 | h2
            · exact absurd h h2
            · exact h2
    · rw [← List.append_assoc]

theorem classifyFunc_none (st : ExtractState) (fi : FuncInfo)
    (h : st.currentScope.getLast? = none) :
    classifyFunc st fi = { st with struct := { st.struct with
      functions := st.struct.functions ++ [fi] } } := by
  unfold classifyFunc
  rw [h]

theorem classifyFunc_mem (st : ExtractState) (fi : FuncInfo) (t : String)
    (h : st.currentScope.getLast? = some t)
    (ht : t ∈ st.struct.classes.map ClassInfo.cname) :
    classifyFunc st fi = { st with struct := { st.struct with
      classes := appendMethodFirst st.struct.classes t fi } } := by
  unfold classifyFunc
  rw [h]
  dsimp only
  rw [if_pos ht]

theorem classifyFunc_notmem (st : ExtractState) (fi : FuncInfo) (t : String)
    (h : st.currentScope.getLast? = some t)
    (ht : t ∉ st.struct.classes.map ClassInfo.cname) :
    classifyFunc st fi = { st with struct := { st.struct with
      functions := st.struct.functions ++ [fi] } } := by
  unfold classifyFunc
  rw [h]
  dsimp only
  rw [if_neg ht]

theorem recordVar_projF (st : ExtractState) (vi : VarInfo) :
    ((recordVar st vi).struct.classes).map projCM =
      st.struct.classes.map projCM ∧
    (recordVar st vi).struct.functions = st.struct.functions := by
  unfold recordVar
  cases st.currentScope.getLast? with
  | none => exact ⟨rfl, rfl⟩
  | some sn => exact ⟨projCM_attachAttrFirst _ _ _, rfl⟩

theorem assignFold_projF (targets : List Expr) (value : Expr) :
    ∀ st : ExtractState,
      (((targets.foldl (fun acc t =>
        match t with
        | .name i => recordVar acc
            { vname := i, ann := none, value := some (getFullName value) }
        | _ => acc) st).struct.classes).map projCM =
          st.struct.classes.map projCM ∧
       (targets.foldl (fun acc t =>
        match t with
        | .name i => recordVar acc
            { vname := i, ann := none, value := some (getFullName value) }
        | _ => acc) st).struct.functions = st.struct.functions) := by
  induction targets with
  | nil => intro st; exact ⟨rfl, rfl⟩
  | cons t ts ih =>
    intro st
    rw [List.foldl_cons]
    obtain ⟨ihA, ihB⟩ := ih (match t with
      | .name i => recordVar st
          { vname := i, ann := none, value := some (getFullName value) }
      | _ => st)
    constructor
    · rw [ihA]
      cases t <;> simp [recordVar_projF]
    · rw [ihB]
      cases t <;> simp [(recordVar_projF _ _).2]

theorem hstar_from_fstL (p : Option String) (b : StmtList) (R rest : List String)
    (hP : ∀ m, p = some m → m ∈ R ∨ m ∉ R ++ (cnamesL b ++ rest))
    (hF : ∀ f ∈ fnamesL b, f ∉ R ++ (cnamesL b ++ rest)) :
    ∀ q ∈ specEncFuncsL p b, ∀ m, q.1 = some m →
      m ∉ rest ∨ m ∈ R ++ cnamesL b := by
  intro q hq m heq
  rcases specEncFuncsL_fst p b q hq with h | ⟨n', h1, h2⟩
  · rcases hP m (heq ▸ h).symm with hm | hm
    · exact Or.inr (List.mem_append_left _ hm)
    · refine Or.inl ?_
      intro hr
      exact hm (List.mem_append_right _ (List.mem_append_right _ hr))
  · have hnm : n' = m := by
      rw [h1] at heq
      exact Option.some.inj heq
    subst hnm
    rcases h2 with h2 | h2
    · exact Or.inr (List.mem_append_right _ h2)
    · refine Or.inl ?_
      intro hr
      exact hF n' h2 (List.mem_append_right _ (List.mem_append_right _ hr))

theorem hstar_from_fstS (p : Option String) (s : Stmt) (R rest : List String)
    (hP : ∀ m, p = some m → m ∈ R ∨ m ∉ R ++ (cnames s ++ rest))
    (hF : ∀ f ∈ fnames s, f ∉ R ++ (cnames s ++ rest)) :
    ∀ q ∈ specEncFuncs p s, ∀ m, q.1 = some m →
      m ∉ rest ∨ m ∈ R ++ cnames s := by
  intro q hq m heq
  rcases specEncFuncs_fst p s q hq with h | ⟨n', h1, h2⟩
  · rcases hP m (heq ▸ h).symm with hm | hm
    · exact Or.inr (List.mem_append_left _ hm)
    · refine Or.inl ?_
      intro hr
      exact hm (List.mem_append_right _ (List.mem_append_right _ hr))
  · have hnm : n' = m := by
      rw [h1] at heq
      exact Option.some.inj heq
    subst hnm
    rcases h2 with h2 | h2
    · exact Or.inr (List.mem_append_right _ h2)
    · refine Or.inl ?_
      intro hr
      exact hF n' h2 (List.mem_append_right _ (List.mem_append_right _ hr))

/-- Every expression has positive size (used for the termination measure of
the mutual refinement induction). -/
theorem expr_sizeOf_pos (e : Expr) : 0 < sizeOf e := by
  cases e <;> simp

-- The central refinement induction: the walker's classes (projected to
-- name-and-methods) and its functions list agree with the spec-side
-- collector, under the no-duplicate-class-name and
-- no-function-shadows-class hypotheses.
mutual
theorem visitStmt_projAB : ∀ (s : Stmt) (st : ExtractState),
    (st.struct.classes.map ClassInfo.cname ++ cnames s).Nodup →
    (∀ f ∈ fnames s, f ∉ st.struct.classes.map ClassInfo.cname ++ cnames s) →
    (∀ m, st.currentScope.getLast? = some m →
      m ∈ st.struct.classes.map ClassInfo.cname ∨
      m ∉ st.struct.classes.map ClassInfo.cname ++ cnames s) →
    (visitStmt st s).struct.classes.map projCM =
      st.struct.classes.map (fun c => (c.cname, c.methods ++
        methodsFor c.cname (specEncFuncs st.currentScope.getLast? s))) ++
      (cnames s).map (fun m =>
        (m, methodsFor m (specEncFuncs st.currentScope.getLast? s))) ∧
    (visitStmt st s).struct.functions =
      st.struct.functions ++
        globalsFor (st.struct.classes.map ClassInfo.cname ++ cnames s)
          (specEncFuncs st.currentScope.getLast? s)
  | .classDef n bases decos body, st => by
    intro hN hF hP
    have hcn : cnames (Stmt.classDef n bases decos body) = n :: cnamesL body := rfl
    have hfn : fnames (Stmt.classDef n bases decos body) = fnamesL body := rfl
    have hE : specEncFuncs st.currentScope.getLast?
        (Stmt.classDef n bases decos body) = specEncFuncsL (some n) body := rfl
    unfold visitStmt
    lift_lets
    intro s1 s2 s3 s4 s5 s6
    have hc4 : s4.struct.classes =
        st.struct.classes ++ [mkClassInfo n bases decos body] := rfl
    have hf4 : s4.struct.functions = st.struct.functions := rfl
    have hsc4 : s4.currentScope = st.currentScope ++ [n] := rfl
    have hN4 : (s4.struct.classes.map ClassInfo.cname ++ cnamesL body).Nodup := by
      rw [hc4, List.map_append]
      rw [hcn, List.append_cons] at hN
      exact hN
    have hF4 : ∀ f ∈ fnamesL body,
        f ∉ s4.struct.classes.map ClassInfo.cname ++ cnamesL body := by
      intro f hf
      have hmem := hF f (by rw [hfn]; exact hf)
      rw [hcn, List.append_cons] at hmem
      rw [hc4, List.map_append]
      exact hmem
    have hP4 : ∀ m, s4.currentScope.getLast? = some m →
        m ∈ s4.struct.classes.map ClassInfo.cname ∨
        m ∉ s4.struct.classes.map ClassInfo.cname ++ cnamesL body := by
      intro m hm
      rw [hsc4, List.getLast?_concat] at hm
      injection hm with hm
      subst hm
      left
      rw [hc4, List.map_append]
      exact List.mem_append_right _ (List.mem_singleton.2 rfl)
    obtain ⟨ihA, ihB⟩ := visitStmts_projAB body s4 hN4 hF4 hP4
    simp only [hc4, hsc4, List.getLast?_concat] at ihA
    simp only [hc4, hf4, hsc4, List.getLast?_concat] at ihB
    constructor
    · show s5.struct.classes.map projCM = _
      rw [ihA, hE, hcn, List.map_append, List.map_cons, List.append_assoc]
      rfl
    · show s5.struct.functions = _
      rw [ihB, hE, hcn, List.map_append, List.append_assoc]
      rfl
  | .functionDef n fargs rets decos body, st => by
    intro hN hF hP
    have hcn : cnames (Stmt.functionDef n fargs rets decos body) =
        cnamesL body := rfl
    have hfn : fnames (Stmt.functionDef n fargs rets decos body) =
        n :: fnamesL body := rfl
    have hnotn : n ∉ st.struct.classes.map ClassInfo.cname ++ cnamesL body := by
      have := hF n (by rw [hfn]; exact List.mem_cons_self n _)
      rw [hcn] at this
      exact this
    unfold visitStmt
    lift_lets
    intro s1 s2 s3 s4 s5 s6
    have hc3 : s3.struct.classes = s1.struct.classes := rfl
    have hf3 : s3.struct.functions = s1.struct.functions := rfl
    have hsc1 : s1.currentScope = st.currentScope := scope_classifyFunc st _
    have hsc3 : s3.currentScope = s1.currentScope ++ [n] := rfl
    rcases hp : st.currentScope.getLast? with _ | t
    · -- module level: a global function
      have h1 : s1 = { st with struct := { st.struct with
          functions := st.struct.functions ++
            [mkFuncInfo n fargs rets decos body] } } :=
        classifyFunc_none st _ hp
      have hc1 : s1.struct.classes = st.struct.classes := by rw [h1]
      have hf1 : s1.struct.functions =
          st.struct.functions ++ [mkFuncInfo n fargs rets decos body] := by
        rw [h1]
      have hN3 : (s3.struct.classes.map ClassInfo.cname ++ cnamesL body).Nodup := by
        rw [hc3, hc1]
        rw [hcn] at hN
        exact hN
      have hF3 : ∀ f ∈ fnamesL body,
          f ∉ s3.struct.classes.map ClassInfo.cname ++ cnamesL body := by
        intro f hf
        rw [hc3, hc1]
        have := hF f (by rw [hfn]; exact List.mem_cons_of_mem n hf)
        rw [hcn] at this
        exact this
      have hP3 : ∀ m, s3.currentScope.getLast? = some m →
          m ∈ s3.struct.classes.map ClassInfo.cname ∨
          m ∉ s3.struct.classes.map ClassInfo.cname ++ cnamesL body := by
        intro m hm
        rw [hsc3, hsc1, List.getLast?_concat] at hm
        injection hm with hm
        subst hm
        right
        rw [hc3, hc1]
        exact hnotn
      obtain ⟨ihA, ihB⟩ := visitStmts_projAB body s3 hN3 hF3 hP3
      simp only [hc3, hc1, hsc3, hsc1, List.getLast?_concat] at ihA
      simp only [hc3, hc1, hf3, hf1, hsc3, hsc1, List.getLast?_concat] at ihB
      have hEe : specEncFuncs (Option.none)
          (Stmt.functionDef n fargs rets decos body) =
          ((Option.none : Option String), mkFuncInfo n fargs rets decos body) ::
            specEncFuncsL (some n) body := rfl
      constructor
      · show s4.struct.classes.map projCM = _
        rw [ihA, hEe, hcn]
        congr 1
      · show s4.struct.functions = _
        rw [ihB, hEe, hcn, globalsFor_cons_none, List.append_assoc]
        rfl
    · -- inside a scope named t
      by_cases ht : t ∈ st.struct.classes.map ClassInfo.cname
      · -- t names a registered class: the def becomes its method
        have h1 : s1 = { st with struct := { st.struct with
            classes := appendMethodFirst st.struct.classes t
              (mkFuncInfo n fargs rets decos body) } } :=
          classifyFunc_mem st _ t hp ht
        have hc1 : s1.struct.classes =
            appendMethodFirst st.struct.classes t
              (mkFuncInfo n fargs rets decos body) := by rw [h1]
        have hf1 : s1.struct.functions = st.struct.functions := by rw [h1]
        have hnames1 : s1.struct.classes.map ClassInfo.cname =
            st.struct.classes.map ClassInfo.cname := by
          rw [hc1, names_appendMethodFirst]
        have hN3 : (s3.struct.classes.map ClassInfo.cname ++ cnamesL body).Nodup := by
          rw [hc3, hnames1]
          rw [hcn] at hN
          exact hN
        have hF3 : ∀ f ∈ fnamesL body,
            f ∉ s3.struct.classes.map ClassInfo.cname ++ cnamesL body := by
          intro f hf
          rw [hc3, hnames1]
          have := hF f (by rw [hfn]; exact List.mem_cons_of_mem n hf)
          rw [hcn] at this
          exact this
        have hP3 : ∀ m, s3.currentScope.getLast? = some m →
            m ∈ s3.struct.classes.map ClassInfo.cname ∨
            m ∉ s3.struct.classes.map ClassInfo.cname ++ cnamesL body := by
          intro m hm
          rw [hsc3, hsc1, List.getLast?_concat] at hm
          injection hm with hm
          subst hm
          right
          rw [hc3, hnames1]
          exact hnotn
        obtain ⟨ihA, ihB⟩ := visitStmts_projAB body s3 hN3 hF3 hP3
        simp only [hc3, hc1, hsc3, hsc1, List.getLast?_concat] at ihA
        simp only [hc3, hf3, hf1, hnames1, hc1, hsc3, hsc1,
          List.getLast?_concat, names_appendMethodFirst] at ihB
        have hnd0 : (st.struct.classes.map ClassInfo.cname).Nodup :=
          (List.nodup_append.1 hN).1
        have hEe : specEncFuncs (some t)
            (Stmt.functionDef n fargs rets decos body) =
            (some t, mkFuncInfo n fargs rets decos body) ::
              specEncFuncsL (some n) body := rfl
        have hdisj2 : ∀ m ∈ cnamesL body, t ≠ m := by
          intro m hm he
          rw [hcn] at hN
          exact (List.nodup_append.1 hN).2.2 ht (he ▸ hm)
        constructor
        · show s4.struct.classes.map projCM = _
          rw [ihA, projLiftE, projCM_appendMethodFirst _ _ _ hnd0,
            List.map_map, hEe, hcn]
          congr 1
          · refine List.map_congr_left ?_
            intro c _
            simp only [Function.comp_apply]
            by_cases hct : c.cname = t
            · rw [hct, if_pos rfl, methodsFor_cons_hit]
              simp
            · have hts : t ≠ c.cname := fun h => hct h.symm
              rw [if_neg hct, methodsFor_cons_skip _ _ _ (by simpa using hts)]
              simp
          · refine List.map_congr_left ?_
            intro m hm
            have hts : t ≠ m := hdisj2 m hm
            rw [methodsFor_cons_skip _ _ _ (by simpa using hts)]
        · show s4.struct.functions = _
          rw [ihB, hEe, hcn,
            globalsFor_cons_mem _ _ _ _ (List.mem_append_left _ ht)]
      · -- t names no registered class: a global function
        have htall : t ∉ st.struct.classes.map ClassInfo.cname ++ cnamesL body := by
          rcases hP t hp with h | h
          · exact absurd h ht
          · rw [hcn] at h
            exact h
        have h1 : s1 = { st with struct := { st.struct with
            functions := st.struct.functions ++
              [mkFuncInfo n fargs rets decos body] } } :=
          classifyFunc_notmem st _ t hp ht
        have hc1 : s1.struct.classes = st.struct.classes := by rw [h1]
        have hf1 : s1.struct.functions =
            st.struct.functions ++ [mkFuncInfo n fargs rets decos body] := by
          rw [h1]
        have hN3 : (s3.struct.classes.map ClassInfo.cname ++ cnamesL body).Nodup := by
          rw [hc3, hc1]
          rw [hcn] at hN
          exact hN
        have hF3 : ∀ f ∈ fnamesL body,
            f ∉ s3.struct.classes.map ClassInfo.cname ++ cnamesL body := by
          intro f hf
          rw [hc3, hc1]
          have := hF f (by rw [hfn]; exact List.mem_cons_of_mem n hf)
          rw [hcn] at this
          exact this
        have hP3 : ∀ m, s3.currentScope.getLast? = some m →
            m ∈ s3.struct.classes.map ClassInfo.cname ∨
            m ∉ s3.struct.classes.map ClassInfo.cname ++ cnamesL body := by
          intro m hm
          rw [hsc3, hsc1, List.getLast?_concat] at hm
          injection hm with hm
          subst hm
          right
          rw [hc3, hc1]
          exact hnotn
        obtain ⟨ihA, ihB⟩ := visitStmts_projAB body s3 hN3 hF3 hP3
        simp only [hc3, hc1, hsc3, hsc1, List.getLast?_concat] at ihA
        simp only [hc3, hc1, hf3, hf1, hsc3, hsc1, List.getLast?_concat] at ihB
        have hEe : specEncFuncs (some t)
            (Stmt.functionDef n fargs rets decos body) =
            (some t, mkFuncInfo n fargs rets decos body) ::
              specEncFuncsL (some n) body := rfl
        constructor
        · show s4.struct.classes.map projCM = _
          rw [ihA, hEe, hcn]
          congr 1
          · refine List.map_congr_left ?_
            intro c hc
            have hts : t ≠ c.cname := by
              intro he
              exact htall (List.mem_append_left _
                (he ▸ List.mem_map.2 ⟨c, hc, rfl⟩))
            rw [methodsFor_cons_skip _ _ _ (by simpa using hts)]
          · refine List.map_congr_left ?_
            intro m hm
            have hts : t ≠ m := by
              intro he
              exact htall (List.mem_append_right _ (he ▸ hm))
            rw [methodsFor_cons_skip _ _ _ (by simpa using hts)]
        · show s4.struct.functions = _
          rw [ihB, hEe, hcn, globalsFor_cons_notmem _ _ _ _ htall,
            List.append_assoc]
          rfl
  | .assign targets value, st => by
    intro _ _ _
    constructor
    · rw [show specEncFuncs st.currentScope.getLast? (Stmt.assign targets value)
          = [] from rfl,
        show cnames (Stmt.assign targets value) = [] from rfl,
        projMap_nilE, List.map_nil, List.append_nil]
      exact (assignFold_projF targets value st).1
    · rw [show specEncFuncs st.currentScope.getLast? (Stmt.assign targets value)
          = [] from rfl, globalsFor_nil, List.append_nil]
      exact (assignFold_projF targets value st).2
  | .annAssign target a v, st => by
    intro _ _ _
    constructor
    · rw [show specEncFuncs st.currentScope.getLast? (Stmt.annAssign target a v)
          = [] from rfl,
        show cnames (Stmt.annAssign target a v) = [] from rfl,
        projMap_nilE, List.map_nil, List.append_nil]
      cases target with
      | name i => exact (recordVar_projF st _).1
      | attr x y => rfl
      | call x y => rfl
      | strConst x => rfl
      | otherE x => rfl
    · rw [show specEncFuncs st.currentScope.getLast? (Stmt.annAssign target a v)
          = [] from rfl, globalsFor_nil, List.append_nil]
      cases target with
      | name i => exact (recordVar_projF st _).2
      | attr x y => rfl
      | call x y => rfl
      | strConst x => rfl
      | otherE x => rfl
  | .importDirect ns, st => by
    intro _ _ _
    exact ⟨by rw [show specEncFuncs st.currentScope.getLast?
        (Stmt.importDirect ns) = [] from rfl,
        show cnames (Stmt.importDirect ns) = [] from rfl,
        projMap_nilE, List.map_nil, List.append_nil]; rfl,
      by rw [show specEncFuncs st.currentScope.getLast?
        (Stmt.importDirect ns) = [] from rfl, globalsFor_nil, List.append_nil]; rfl⟩
  | .importFromM m ns, st => by
    intro _ _ _
    exact ⟨by rw [show specEncFuncs st.currentScope.getLast?
        (Stmt.importFromM m ns) = [] from rfl,
        show cnames (Stmt.importFromM m ns) = [] from rfl,
        projMap_nilE, List.map_nil, List.append_nil]; rfl,
      by rw [show specEncFuncs st.currentScope.getLast?
        (Stmt.importFromM m ns) = [] from rfl, globalsFor_nil, List.append_nil]; rfl⟩
  | .exprStmt e, st => by
    intro _ _ _
    exact ⟨by rw [show specEncFuncs st.currentScope.getLast?
        (Stmt.exprStmt e) = [] from rfl,
        show cnames (Stmt.exprStmt e) = [] from rfl,
        projMap_nilE, List.map_nil, List.append_nil]; rfl,
      by rw [show specEncFuncs st.currentScope.getLast?
        (Stmt.exprStmt e) = [] from rfl, globalsFor_nil, List.append_nil]; rfl⟩
  | .ifStmt t b o, st => by
    intro hN hF hP
    have hcn : cnames (Stmt.ifStmt t b o) = cnamesL b ++ cnamesL o := rfl
    have hfn : fnames (Stmt.ifStmt t b o) = fnamesL b ++ fnamesL o := rfl
    have hE : specEncFuncs st.currentScope.getLast? (Stmt.ifStmt t b o) =
        specEncFuncsL st.currentScope.getLast? b ++
        specEncFuncsL st.currentScope.getLast? o := rfl
    rw [hcn] at hN hF hP
    rw [hfn] at hF
    unfold visitStmt
    lift_lets
    intro s1 s2 s3
    exact twoPhase st s2 b o hN hF hP rfl rfl rfl
  | .forStmt tg it b o, st => by
    intro hN hF hP
    have hcn : cnames (Stmt.forStmt tg it b o) = cnamesL b ++ cnamesL o := rfl
    have hfn : fnames (Stmt.forStmt tg it b o) = fnamesL b ++ fnamesL o := rfl
    rw [hcn] at hN hF hP
    rw [hfn] at hF
    unfold visitStmt
    lift_lets
    intro s1 s2 s3 s4
    exact twoPhase st s3 b o hN hF hP rfl rfl rfl
  | .whileStmt t b o, st => by
    intro hN hF hP
    have hcn : cnames (Stmt.whileStmt t b o) = cnamesL b ++ cnamesL o := rfl
    have hfn : fnames (Stmt.whileStmt t b o) = fnamesL b ++ fnamesL o := rfl
    rw [hcn] at hN hF hP
    rw [hfn] at hF
    unfold visitStmt
    lift_lets
    intro s1 s2 s3
    exact twoPhase st s2 b o hN hF hP rfl rfl rfl
  | .ret v, st => by
    intro _ _ _
    exact ⟨by rw [show specEncFuncs st.currentScope.getLast?
        (Stmt.ret v) = [] from rfl,
        show cnames (Stmt.ret v) = [] from rfl,
        projMap_nilE, List.map_nil, List.append_nil]; rfl,
      by rw [show specEncFuncs st.currentScope.getLast?
        (Stmt.ret v) = [] from rfl, globalsFor_nil, List.append_nil]; rfl⟩
  | .pass, st => by
    intro _ _ _
    exact ⟨by rw [show specEncFuncs st.currentScope.getLast?
        Stmt.pass = [] from rfl,
        show cnames Stmt.pass = [] from rfl,
        projMap_nilE, List.map_nil, List.append_nil]; rfl,
      by rw [show specEncFuncs st.currentScope.getLast?
        Stmt.pass = [] from rfl, globalsFor_nil, List.append_nil]; rfl⟩
termination_by s st => sizeOf s
decreasing_by
all_goals simp_wf
all_goals first
  | (have h1 := expr_sizeOf_pos t; omega)
  | (have h1 := expr_sizeOf_pos tg; have h2 := expr_sizeOf_pos it; omega)
/-- Two sequential `visitStmts` phases compose (this is the engine of the
`if`, `for` and `while` cases). -/
theorem twoPhase : ∀ (st sB : ExtractState) (b o : StmtList),
    (st.struct.classes.map ClassInfo.cname ++ (cnamesL b ++ cnamesL o)).Nodup →
    (∀ f ∈ fnamesL b ++ fnamesL o,
      f ∉ st.struct.classes.map ClassInfo.cname ++ (cnamesL b ++ cnamesL o)) →
    (∀ m, st.currentScope.getLast? = some m →
      m ∈ st.struct.classes.map ClassInfo.cname ∨
      m ∉ st.struct.classes.map ClassInfo.cname ++ (cnamesL b ++ cnamesL o)) →
    sB.struct.classes = st.struct.classes →
    sB.struct.functions = st.struct.functions →
    sB.currentScope = st.currentScope →
    (visitStmts (visitStmts sB b) o).struct.classes.map projCM =
      st.struct.classes.map (fun c => (c.cname, c.methods ++
        methodsFor c.cname (specEncFuncsL st.currentScope.getLast? b ++
          specEncFuncsL st.currentScope.getLast? o))) ++
      (cnamesL b ++ cnamesL o).map (fun m =>
        (m, methodsFor m (specEncFuncsL st.currentScope.getLast? b ++
          specEncFuncsL st.currentScope.getLast? o))) ∧
    (visitStmts (visitStmts sB b) o).struct.functions =
      st.struct.functions ++
        globalsFor (st.struct.classes.map ClassInfo.cname ++
          (cnamesL b ++ cnamesL o))
          (specEncFuncsL st.currentScope.getLast? b ++
            specEncFuncsL st.currentScope.getLast? o)
  | st, sB, b, o, hN, hF, hP, hcB, hfB, hscB => by
    have hNassoc : ((st.struct.classes.map ClassInfo.cname ++ cnamesL b) ++
        cnamesL o).Nodup := by
      rw [List.append_assoc]
      exact hN
    have hN1 : (sB.struct.classes.map ClassInfo.cname ++ cnamesL b).Nodup := by
      rw [hcB]
      exact List.Nodup.sublist (List.sublist_append_left _ _) hNassoc
    have hF1 : ∀ f ∈ fnamesL b,
        f ∉ sB.struct.classes.map ClassInfo.cname ++ cnamesL b := by
      intro f hf hmem
      refine hF f (List.mem_append_left _ hf) ?_
      rw [hcB] at hmem
      rcases List.mem_append.1 hmem with h | h
      · exact List.mem_append_left _ h
      · exact List.mem_append_right _ (List.mem_append_left _ h)
    have hP1 : ∀ m, sB.currentScope.getLast? = some m →
        m ∈ sB.struct.classes.map ClassInfo.cname ∨
        m ∉ sB.struct.classes.map ClassInfo.cname ++ cnamesL b := by
      intro m hm
      rw [hscB] at hm
      rw [hcB]
      rcases hP m hm with h | h
      · exact Or.inl h
      · refine Or.inr ?_
        intro hmem
        refine h ?_
        rcases List.mem_append.1 hmem with h2 | h2
        · exact List.mem_append_left _ h2
        · exact List.mem_append_right _ (List.mem_append_left _ h2)
    obtain ⟨ih1A, ih1B⟩ := visitStmts_projAB b sB hN1 hF1 hP1
    rw [hcB, hscB] at ih1A
    rw [hcB, hfB, hscB] at ih1B
    have hnamesO : (visitStmts sB b).struct.classes.map ClassInfo.cname =
        st.struct.classes.map ClassInfo.cname ++ cnamesL b := by
      have := names_of_projEq st.struct.classes
        (visitStmts sB b).struct.classes _ _ ih1A
      exact this
    have hN2 : ((visitStmts sB b).struct.classes.map ClassInfo.cname ++
        cnamesL o).Nodup := by
      rw [hnamesO]
      exact hNassoc
    have hF2 : ∀ f ∈ fnamesL o,
        f ∉ (visitStmts sB b).struct.classes.map ClassInfo.cname ++
          cnamesL o := by
      intro f hf hmem
      refine hF f (List.mem_append_right _ hf) ?_
      rw [hnamesO, List.append_assoc] at hmem
      exact hmem
    have hP2 : ∀ m, (visitStmts sB b).currentScope.getLast? = some m →
        m ∈ (visitStmts sB b).struct.classes.map ClassInfo.cname ∨
        m ∉ (visitStmts sB b).struct.classes.map ClassInfo.cname ++
          cnamesL o := by
      intro m hm
      rw [visitStmts_scope, hscB] at hm
      rcases hP m hm with h | h
      · exact Or.inl (hnamesO ▸ List.mem_append_left _ h)
      · refine Or.inr ?_
        rw [hnamesO, List.append_assoc]
        exact h
    obtain ⟨ih2A, ih2B⟩ := visitStmts_projAB o (visitStmts sB b) hN2 hF2 hP2
    rw [visitStmts_scope, hscB] at ih2A ih2B
    have hstar := hstar_from_fstL st.currentScope.getLast? b
      (st.struct.classes.map ClassInfo.cname) (cnamesL o) hP
      (fun f hf => hF f (List.mem_append_left _ hf))
    exact composeAB st.struct.classes (visitStmts sB b).struct.classes
      (visitStmts (visitStmts sB b) o).struct.classes
      st.struct.functions (visitStmts sB b).struct.functions
      (visitStmts (visitStmts sB b) o).struct.functions
      (specEncFuncsL st.currentScope.getLast? b)
      (specEncFuncsL st.currentScope.getLast? o)
      (cnamesL b) (cnamesL o) ih1A ih1B ih2A ih2B hstar hNassoc
termination_by st sB b o hN hF hP h1 h2 h3 => sizeOf b + sizeOf o + 1
decreasing_by
all_goals simp_wf
all_goals omega
theorem visitStmts_projAB : ∀ (l : StmtList) (st : ExtractState),
    (st.struct.classes.map ClassInfo.cname ++ cnamesL l).Nodup →
    (∀ f ∈ fnamesL l, f ∉ st.struct.classes.map ClassInfo.cname ++ cnamesL l) →
    (∀ m, st.currentScope.getLast? = some m →
      m ∈ st.struct.classes.map ClassInfo.cname ∨
      m ∉ st.struct.classes.map ClassInfo.cname ++ cnamesL l) →
    (visitStmts st l).struct.classes.map projCM =
      st.struct.classes.map (fun c => (c.cname, c.methods ++
        methodsFor c.cname (specEncFuncsL st.currentScope.getLast? l))) ++
      (cnamesL l).map (fun m =>
        (m, methodsFor m (specEncFuncsL st.currentScope.getLast? l))) ∧
    (visitStmts st l).struct.functions =
      st.struct.functions ++
        globalsFor (st.struct.classes.map ClassInfo.cname ++ cnamesL l)
          (specEncFuncsL st.currentScope.getLast? l)
  | .nil, st => by
    intro _ _ _
    constructor
    · show st.struct.classes.map projCM = _
      rw [show specEncFuncsL st.currentScope.getLast? StmtList.nil = []
          from rfl,
        show cnamesL StmtList.nil = [] from rfl, projMap_nilE]
      simp
    · show st.struct.functions = _
      rw [show specEncFuncsL st.currentScope.getLast? StmtList.nil = []
          from rfl, globalsFor_nil]
      simp
  | .cons s rest, st => by
    intro hN hF hP
    have hcn : cnamesL (StmtList.cons s rest) = cnames s ++ cnamesL rest := rfl
    have hfn : fnamesL (StmtList.cons s rest) = fnames s ++ fnamesL rest := rfl
    rw [hcn] at hN hF hP
    rw [hfn] at hF
    have hNassoc : ((st.struct.classes.map ClassInfo.cname ++ cnames s) ++
        cnamesL rest).Nodup := by
      rw [List.append_assoc]
      exact hN
    have hN1 : (st.struct.classes.map ClassInfo.cname ++ cnames s).Nodup :=
      List.Nodup.sublist (List.sublist_append_left _ _) hNassoc
    have hF1 : ∀ f ∈ fnames s,
        f ∉ st.struct.classes.map ClassInfo.cname ++ cnames s := by
      intro f hf hmem
      refine hF f (List.mem_append_left _ hf) ?_
      rcases List.mem_append.1 hmem with h | h
      · exact List.mem_append_left _ h
      · exact List.mem_append_right _ (List.mem_append_left _ h)
    have hP1 : ∀ m, st.currentScope.getLast? = some m →
        m ∈ st.struct.classes.map ClassInfo.cname ∨
        m ∉ st.struct.classes.map ClassInfo.cname ++ cnames s := by
      intro m hm
      rcases hP m hm with h | h
      · exact Or.inl h
      · refine Or.inr ?_
        intro hmem
        refine h ?_
        rcases List.mem_append.1 hmem with h2 | h2
        · exact List.mem_append_left _ h2
        · exact List.mem_append_right _ (List.mem_append_left _ h2)
    obtain ⟨ih1A, ih1B⟩ := visitStmt_projAB s st hN1 hF1 hP1
    have hnamesO : (visitStmt st s).struct.classes.map ClassInfo.cname =
        st.struct.classes.map ClassInfo.cname ++ cnames s :=
      names_of_projEq st.struct.classes (visitStmt st s).struct.classes _ _ ih1A
    have hN2 : ((visitStmt st s).struct.classes.map ClassInfo.cname ++
        cnamesL rest).Nodup := by
      rw [hnamesO]
      exact hNassoc
    have hF2 : ∀ f ∈ fnamesL rest,
        f ∉ (visitStmt st s).struct.classes.map ClassInfo.cname ++
          cnamesL rest := by
      intro f hf hmem
      refine hF f (List.mem_append_right _ hf) ?_
      rw [hnamesO, List.append_assoc] at hmem
      exact hmem
    have hP2 : ∀ m, (visitStmt st s).currentScope.getLast? = some m →
        m ∈ (visitStmt st s).struct.classes.map ClassInfo.cname ∨
        m ∉ (visitStmt st s).struct.classes.map ClassInfo.cname ++
          cnamesL rest := by
      intro m hm
      rw [visitStmt_scope] at hm
      rcases hP m hm with h | h
      · exact Or.inl (hnamesO ▸ List.mem_append_left _ h)
      · refine Or.inr ?_
        rw [hnamesO, List.append_assoc]
        exact h
    obtain ⟨ih2A, ih2B⟩ := visitStmts_projAB rest (visitStmt st s) hN2 hF2 hP2
    rw [visitStmt_scope] at ih2A ih2B
    have hstar := hstar_from_fstS st.currentScope.getLast? s
      (st.struct.classes.map ClassInfo.cname) (cnamesL rest) hP
      (fun f hf => hF f (List.mem_append_left _ hf))
    have hmain := composeAB st.struct.classes (visitStmt st s).struct.classes
      (visitStmts (visitStmt st s) rest).struct.classes
      st.struct.functions (visitStmt st s).struct.functions
      (visitStmts (visitStmt st s) rest).struct.functions
      (specEncFuncs st.currentScope.getLast? s)
      (specEncFuncsL st.currentScope.getLast? rest)
      (cnames s) (cnamesL rest) ih1A ih1B ih2A ih2B hstar hNassoc
    rw [hcn]
    exact hmain
termination_by l st => sizeOf l
decreasing_by
all_goals simp_wf
all_goals omega
end

/-- C5: when the module's class names are pairwise distinct and no function
definition shares its name with a class, every class record's method list
is exactly the list of function definitions whose immediate enclosing
scope name is that class, in source order (`methodsFor`), and the
module-level `functions` list is exactly the remaining definitions
(`globalsFor`) — so every definition lands in exactly one of the two. -/
theorem C5_method_attachment (fp : String) (body : StmtList)
    (hN : (cnamesL body).Nodup)
    (hF : ∀ f ∈ fnamesL body, f ∉ cnamesL body) :
    (runExtractor fp body).classes.map projCM =
      (cnamesL body).map (fun m =>
        (m, methodsFor m (specEncFuncsL (Option.none) body))) ∧
    (runExtractor fp body).functions =
      globalsFor (cnamesL body) (specEncFuncsL (Option.none) body) := by
  have h := visitStmts_projAB body
    { struct :=
        { module_name := "Module"
          global_variables := []
          classes := []
          functions := []
          directImports := []
          fromImports := []
          calls := [] }
      currentScope := [] }
    (by simpa using hN) (by simpa using hF)
    (fun m hm => by simp at hm)
  constructor
  · have h1 := h.1
    simp only [List.map_nil, List.nil_append] at h1
    exact h1
  · have h2 := h.2
    simp only [List.map_nil, List.nil_append] at h2
    exact h2

theorem C5_method_attachment_witness :
    (cnamesL bodyClassTwoMethods).Nodup ∧
    (∀ f ∈ fnamesL bodyClassTwoMethods, f ∉ cnamesL bodyClassTwoMethods) ∧
    ((runExtractor "/tmp/ex.py" bodyClassTwoMethods).classes.map projCM =
      (cnamesL bodyClassTwoMethods).map (fun m =>
        (m, methodsFor m (specEncFuncsL (Option.none) bodyClassTwoMethods))) ∧
     (runExtractor "/tmp/ex.py" bodyClassTwoMethods).functions =
      globalsFor (cnamesL bodyClassTwoMethods)
        (specEncFuncsL (Option.none) bodyClassTwoMethods)) :=
  ⟨by decide, by decide,
    C5_method_attachment "/tmp/ex.py" bodyClassTwoMethods
      (by decide) (by decide)⟩

/-- With two classes both named `A` — the second containing `def m(self)` —
the extractor attaches `m` to the FIRST class record (whose body is empty)
and leaves the second record without methods, so the unqualified claim
that each class's method list holds exactly the definitions of its own
scope is false. -/
theorem C5_duplicate_class_counterexample :
    (runExtractor "dup.py" bodyDupClasses).classes.map
        (fun c => (c.cname, c.methods.map FuncInfo.fname)) =
      [("A", ["m"]), ("A", [])] := by decide

end CodeView
